import Mathlib

/-!
Shallow embedding of the MiniDSP 2x4HD USB driver core (MiniDSP.cpp / MiniDSP.h).

Conventions of the embedding:
* A frame / buffer is a `List Nat`; every read through `byteAt` truncates to
  an 8-bit value (`% 256`), mirroring the C `uint8_t` buffer type, and returns
  `none` when the index is outside the list (the C code would read out of
  bounds there, which we make explicit with `Option`).
* The device state (the private fields of class `MiniDSP`) is the structure
  `DSPState`; invocations of the optional callback function pointers are
  recorded as a list of `Event`s in the order the C code would invoke them.
  The debug hook `pFuncOnParse` and the USB VID/PID filtering are transport /
  observability concerns outside the parsing core and are not modelled.
* `float` level samples are represented by their 32-bit little-endian bit
  pattern assembled by `getFloatLE`.  IEEE-754 decoding is a bijection on bit
  patterns and the parser only ever stores these values (it never compares or
  computes with them), so the bit pattern is a faithful representation.
* The outbound path (`SendCommand`) writes through `Buf.wr`, which records
  whether any store landed outside the 64-byte stack buffer `uint8_t buf[64]`
  (an out-of-bounds store is undefined behaviour in C, reported as
  `SendResult.oob`).
-/

namespace MiniDSP

/-- Read byte `i` of a buffer: `none` models an out-of-bounds access of the C
code, and the value is truncated to `uint8_t` range. -/
def byteAt (buf : List Nat) (i : Nat) : Option Nat :=
  (buf.get? i).map (· % 256)

/-- The private state fields of class `MiniDSP` (MiniDSP.h lines 353-366).
`volume` is a `uint16_t` in the source, the other scalar fields `uint8_t`;
the level arrays hold the 32-bit patterns of the stored `float`s. -/
structure DSPState where
  preset : Nat
  source : Nat
  volume : Nat
  muted : Nat
  callbackAlways : Bool
  outputLevels : List Nat
  inputLevels : List Nat
deriving DecidableEq

/-- Initial field values of a freshly constructed `MiniDSP`
(MiniDSP.h lines 356-366): sentinels plus `callbackAlways = true`,
level arrays zeroed (`0.0f` has bit pattern 0). -/
def initState : DSPState :=
  { preset := 4, source := 3, volume := 0x100, muted := 2,
    callbackAlways := true,
    outputLevels := [0, 0, 0, 0], inputLevels := [0, 0] }

/-- One recorded callback invocation.  `volumeChange`/`sourceChange` carry the
`uint8_t` argument, `mutedChange` the `bool` argument (`muted != 0`), and the
level events carry the whole array handed to the callback. -/
inductive Event where
  | sourceChange (s : Nat)
  | volumeChange (v : Nat)
  | mutedChange (m : Bool)
  | newOutputLevels (l : List Nat)
  | newInputLevels (l : List Nat)
deriving DecidableEq

def Event.isVolume : Event → Bool
  | .volumeChange _ => true
  | _ => false

def Event.isSource : Event → Bool
  | .sourceChange _ => true
  | _ => false

def Event.isMuted : Event → Bool
  | .mutedChange _ => true
  | _ => false

/-- `MiniDSP::parseDirectSetResponse` (MiniDSP.cpp lines 72-107): reads
`data = buf[2]`, switches on `buf[1]` with cases 0x42 (volume), 0x17 (muted),
0x34 (source); each case updates its field and invokes the matching callback
when `callbackAlways || changed`. -/
def parseDirectSetResponse (st : DSPState) (buf : List Nat) :
    Option (DSPState × List Event) :=
  match byteAt buf 2, byteAt buf 1 with
  | some data, some op =>
    if op = 0x42 then
      let changed := data != st.volume
      some ({ st with volume := data },
            if st.callbackAlways || changed then [.volumeChange data] else [])
    else if op = 0x17 then
      let changed := data != st.muted
      some ({ st with muted := data },
            if st.callbackAlways || changed then [.mutedChange (data != 0)] else [])
    else if op = 0x34 then
      let changed := data != st.source
      some ({ st with source := data },
            if st.callbackAlways || changed then [.sourceChange data] else [])
    else some (st, [])
  | _, _ => none

/-- One iteration of the `parseByteReadResponse` loop body
(MiniDSP.cpp lines 118-151) at loop index `k`:
`addr = baseAddr + k` in wrapping 8-bit arithmetic, `data = buf[k + 4]`,
then the `switch (addr)` with cases 0xD8 (preset, no callback wired),
0xA9/0xD9 (source), 0xDA (volume), 0xDB (muted). -/
def byteStep (buf : List Nat) (base : Nat) (st : DSPState) (k : Nat) :
    Option (DSPState × List Event) :=
  match byteAt buf (k + 4) with
  | none => none
  | some data =>
    let addr := (base + k) % 256
    if addr = 0xD8 then
      some ({ st with preset := data }, [])
    else if addr = 0xA9 ∨ addr = 0xD9 then
      let changed := data != st.source
      some ({ st with source := data },
            if st.callbackAlways || changed then [.sourceChange data] else [])
    else if addr = 0xDA then
      let changed := data != st.volume
      some ({ st with volume := data },
            if st.callbackAlways || changed then [.volumeChange data] else [])
    else if addr = 0xDB then
      let changed := data != st.muted
      some ({ st with muted := data },
            if st.callbackAlways || changed then [.mutedChange (data != 0)] else [])
    else some (st, [])

/-- The `for (uint8_t i = 0; i < dataLength; i++)` loop of
`parseByteReadResponse`, with `i` the current index and `r` the number of
iterations still to run; events are concatenated in execution order. -/
def byteLoop (buf : List Nat) (base : Nat) (st : DSPState) (i r : Nat) :
    Option (DSPState × List Event) :=
  match r with
  | 0 => some (st, [])
  | r' + 1 =>
    match byteStep buf base st i with
    | none => none
    | some (st', e) =>
      match byteLoop buf base st' (i + 1) r' with
      | none => none
      | some (st'', e') => some (st'', e ++ e')

/-- `MiniDSP::parseByteReadResponse` (MiniDSP.cpp lines 109-152):
`dataLength = buf[0] - 4` in wrapping `uint8_t` arithmetic
(hence `(b0 + 252) % 256`), `baseAddr = buf[3]`, then the loop. -/
def parseByteReadResponse (st : DSPState) (buf : List Nat) :
    Option (DSPState × List Event) :=
  match byteAt buf 0, byteAt buf 3 with
  | some b0, some base => byteLoop buf base st 0 ((b0 + 252) % 256)
  | _, _ => none

/-- `MiniDSP::getFloatLE` (MiniDSP.cpp lines 223-227): `memcpy` of 4 bytes
into a `float` on a little-endian target; we keep the assembled 32-bit
little-endian word (the IEEE-754 bit pattern). -/
def getFloatLE (b0 b1 b2 b3 : Nat) : Nat :=
  b0 + 256 * b1 + 65536 * b2 + 16777216 * b3

/-- One iteration of the `parseFloatReadResponse` loop body
(MiniDSP.cpp lines 164-194) at loop index `k`: reads the 4 bytes at
`buf + 4 + (k << 2)`, computes `addr = baseAddr + k` (wrapping), and stores
into `inputLevels` (0x44, 0x45) or `outputLevels` (0x4A-0x4D), setting the
corresponding "new levels" flag. -/
def floatStep (buf : List Nat) (base : Nat) (st : DSPState) (nOut nIn : Bool)
    (k : Nat) : Option (DSPState × Bool × Bool) :=
  match byteAt buf (4 + 4 * k), byteAt buf (4 + 4 * k + 1),
        byteAt buf (4 + 4 * k + 2), byteAt buf (4 + 4 * k + 3) with
  | some b0, some b1, some b2, some b3 =>
    let data := getFloatLE b0 b1 b2 b3
    let addr := (base + k) % 256
    if addr = 0x44 then
      some ({ st with inputLevels := st.inputLevels.set 0 data }, nOut, true)
    else if addr = 0x45 then
      some ({ st with inputLevels := st.inputLevels.set 1 data }, nOut, true)
    else if addr = 0x4A then
      some ({ st with outputLevels := st.outputLevels.set 0 data }, true, nIn)
    else if addr = 0x4B then
      some ({ st with outputLevels := st.outputLevels.set 1 data }, true, nIn)
    else if addr = 0x4C then
      some ({ st with outputLevels := st.outputLevels.set 2 data }, true, nIn)
    else if addr = 0x4D then
      some ({ st with outputLevels := st.outputLevels.set 3 data }, true, nIn)
    else some (st, nOut, nIn)
  | _, _, _, _ => none

/-- The `for (uint8_t i = 0; i < nFloats; i++)` loop of
`parseFloatReadResponse`, carrying the `newOutputLevels` / `newInputLevels`
flags. -/
def floatLoop (buf : List Nat) (base : Nat) (st : DSPState) (nOut nIn : Bool)
    (i r : Nat) : Option (DSPState × Bool × Bool) :=
  match r with
  | 0 => some (st, nOut, nIn)
  | r' + 1 =>
    match floatStep buf base st nOut nIn i with
    | none => none
    | some (st', o, n) => floatLoop buf base st' o n (i + 1) r'

/-- `MiniDSP::parseFloatReadResponse` (MiniDSP.cpp lines 154-197):
`dataLength = buf[0] - 4` (wrapping); if `dataLength % 4 != 0` the frame is
discarded (before `buf[3]` is ever read); otherwise the loop runs
`dataLength / 4` times and afterwards the batched callbacks fire —
output levels first, then input levels — iff the matching flag was set. -/
def parseFloatReadResponse (st : DSPState) (buf : List Nat) :
    Option (DSPState × List Event) :=
  match byteAt buf 0 with
  | none => none
  | some b0 =>
    let dataLength := (b0 + 252) % 256
    if dataLength % 4 ≠ 0 then some (st, [])
    else
      match byteAt buf 3 with
      | none => none
      | some base =>
        match floatLoop buf base st false false 0 (dataLength / 4) with
        | none => none
        | some (st', nOut, nIn) =>
          some (st',
            (if nOut then [Event.newOutputLevels st'.outputLevels] else []) ++
            (if nIn then [Event.newInputLevels st'.inputLevels] else []))

/-- `MiniDSP::ParseHIDData` (MiniDSP.cpp lines 199-221), restricted to the
classification core: the VID/PID filter and the `pFuncOnParse` debug hook are
transport / observability concerns handled before classification and are not
part of the parsing state machine. -/
def ParseHIDData (st : DSPState) (buf : List Nat) :
    Option (DSPState × List Event) :=
  if byteAt buf 0 = some 0x01 then parseDirectSetResponse st buf
  else if byteAt buf 1 = some 0x05 ∧ byteAt buf 2 = some 0xFF then
    parseByteReadResponse st buf
  else if byteAt buf 1 = some 0x14 ∧ byteAt buf 2 = some 0x00 then
    parseFloatReadResponse st buf
  else some (st, [])

/-- `MiniDSP::Checksum` (MiniDSP.cpp lines 243-249): sum of the bytes as
`uint16_t`, low 8 bits returned.  The sum of at most 255 bytes, each below
256, never exceeds 65025, so the `uint16_t` accumulator cannot wrap and
`sum & 0xFF` equals the plain sum modulo 256. -/
def Checksum (data : List Nat) : Nat :=
  data.sum % 256

/-- The 64-byte stack buffer `uint8_t buf[64]` of `SendCommand`, with a flag
recording whether any store went outside the array (undefined behaviour in
C).  Stores truncate to `uint8_t`; the untouched cells read as 0 (their
concrete initial value never reaches the transport on the defined paths). -/
structure Buf where
  mem : Nat → Nat
  oob : Bool

/-- A single byte store `buf[i] = v`. -/
def Buf.wr (b : Buf) (i v : Nat) : Buf :=
  ⟨fun j => if j = i then v % 256 else b.mem j, b.oob || decide (64 ≤ i)⟩

/-- Consecutive byte stores starting at index `i` (`memcpy` / `memset`). -/
def Buf.wrList (b : Buf) (i : Nat) : List Nat → Buf
  | [] => b
  | v :: vs => (b.wr i v).wrList (i + 1) vs

/-- Outcome of `MiniDSP::SendCommand`: the guard returned early (`rejected`),
a store went out of bounds (`oob`, undefined behaviour in the C code), or a
64-byte frame was handed to `pUsb->outTransfer` (`sent`). -/
inductive SendResult where
  | rejected
  | oob
  | sent (frame : List Nat)
deriving DecidableEq

/-- The buffer after `buf[0] = command_length + 1` and
`memcpy(&buf[1], command, command_length)`. -/
def sendHeaderBuf (command : List Nat) : Buf :=
  ((Buf.mk (fun _ => 0) false).wr 0 (command.length + 1)).wrList 1 command

/-- `Checksum(buf, command_length + 1)`: the checksum of bytes
`buf[0 .. command_length]` at the point where header and command have been
stored. -/
def sendChecksum (command : List Nat) : Nat :=
  Checksum (List.ofFn fun i : Fin (command.length + 1) => (sendHeaderBuf command).mem i)

/-- The buffer after the checksum store `buf[checksumOffset] = ...` and the
`0xFF` padding `memset` (whose `size_t` count is `64 - checksumOffset - 1`). -/
def sendBuf (command : List Nat) : Buf :=
  ((sendHeaderBuf command).wr (command.length + 1) (sendChecksum command)).wrList
    (command.length + 2) (List.replicate (64 - command.length - 2) 0xFF)

/-- `MiniDSP::SendCommand` (MiniDSP.cpp lines 251-277): guard
`command_length > 63`; then header + command stores, checksum store at
`command_length + 1`, and `0xFF` padding (see `sendHeaderBuf`, `sendBuf`).
The `memset` count `sizeof buf - checksumOffset - 1` is a `size_t`; it only
underflows when `command_length = 63`, and on that path the checksum store
has already gone out of bounds, so the truncated `Nat` subtraction is only
ever used where it agrees with the C value.  The frame handed to
`pUsb->outTransfer` is the final 64 bytes. -/
def SendCommand (command : List Nat) : SendResult :=
  if 63 < command.length then .rejected
  else if (sendBuf command).oob then .oob
  else .sent (List.ofFn fun i : Fin 64 => (sendBuf command).mem i)

/-- `MiniDSP::setVolume(uint8_t)` (MiniDSP.cpp lines 328-334):
sends the direct-set volume command `[0x42, volume]`. -/
def setVolumeByte (volume : Nat) : SendResult :=
  SendCommand [0x42, volume % 256]

/-- C truncation toward zero of a real argument (the integral part used by a
float-to-integer conversion). -/
def cTruncate (x : ℚ) : Int :=
  if 0 ≤ x then ⌊x⌋ else -⌊-x⌋

/-- Conversion of a floating value to `uint8_t`: defined iff the integral
part is representable in `[0, 255]`; outside that range the conversion is
undefined behaviour in C/C++ (`none`). -/
def floatToUint8 (x : ℚ) : Option Nat :=
  let t := cTruncate x
  if 0 ≤ t ∧ t < 256 then some t.toNat else none

/-- `MiniDSP::setVolume(float)` (MiniDSP.cpp lines 322-326):
`uint8_t intVol = max(-127, min(0, volume)) * 2;` followed by
`setVolume(intVol)`.  The Arduino `min`/`max` macros are plain conditionals,
so the clamp and the `* 2` are exact rational arithmetic on the argument
(exact in IEEE single precision for every value considered here); the final
conversion of the scaled value to `uint8_t` is `floatToUint8`. -/
def setVolumeFloat (volume : ℚ) : Option SendResult :=
  (floatToUint8 (max (-127 : ℚ) (min 0 volume) * 2)).map setVolumeByte

/-- `dataLength` as computed by both read parsers from byte 0 of a frame:
`buf[0] - 4` in wrapping `uint8_t` arithmetic. -/
def dataLengthOf (frame : List Nat) : Nat :=
  (frame.getD 0 0 % 256 + 252) % 256

/-- `baseAddr` as read by both read parsers from byte 3 of a frame. -/
def readBaseOf (frame : List Nat) : Nat :=
  frame.getD 3 0 % 256

/-- Number of floats decoded by the float-read parser. -/
def nFloatsOf (frame : List Nat) : Nat :=
  dataLengthOf frame / 4

/-- Does the byte-read address window of `frame` contain address `a`? -/
def hitsByteAddr (frame : List Nat) (a : Nat) : Bool :=
  (List.range (dataLengthOf frame)).any fun k => (readBaseOf frame + k) % 256 == a

/-- Does the float-read address window of `frame` contain address `a`? -/
def hitsFloatAddr (frame : List Nat) (a : Nat) : Bool :=
  (List.range (nFloatsOf frame)).any fun k => (readBaseOf frame + k) % 256 == a

/-- At least one output-level address (0x4A-0x4D) occurs in the float window. -/
def outputHit (frame : List Nat) : Bool :=
  hitsFloatAddr frame 0x4A || hitsFloatAddr frame 0x4B ||
  hitsFloatAddr frame 0x4C || hitsFloatAddr frame 0x4D

/-- At least one input-level address (0x44, 0x45) occurs in the float window. -/
def inputHit (frame : List Nat) : Bool :=
  hitsFloatAddr frame 0x44 || hitsFloatAddr frame 0x45

/-- Frame classified to the direct-set parser. -/
def isDirectFrame (frame : List Nat) : Prop :=
  byteAt frame 0 = some 0x01

/-- Frame classified to the byte-read parser. -/
def isByteFrame (frame : List Nat) : Prop :=
  ¬ isDirectFrame frame ∧ byteAt frame 1 = some 0x05 ∧ byteAt frame 2 = some 0xFF

/-- Frame classified to the float-read parser. -/
def isFloatFrame (frame : List Nat) : Prop :=
  ¬ isDirectFrame frame ∧
  ¬ (byteAt frame 1 = some 0x05 ∧ byteAt frame 2 = some 0xFF) ∧
  byteAt frame 1 = some 0x14 ∧ byteAt frame 2 = some 0x00

/-- The fresh device state switched to on-change notification mode
(`callbackOnChange()`, MiniDSP.h line 210). -/
def onChangeInit : DSPState :=
  { initState with callbackAlways := false }

/-- The `uint8_t data = buf[i + 4]` value of the byte-read loop at index `k`. -/
def byteDataAt (buf : List Nat) (k : Nat) : Nat :=
  buf.getD (k + 4) 0 % 256

/-- The 32-bit word assembled by `getFloatLE(buf + 4 + (k << 2))`. -/
def floatWordAt (buf : List Nat) (k : Nat) : Nat :=
  getFloatLE (buf.getD (4 + 4 * k) 0 % 256) (buf.getD (4 + 4 * k + 1) 0 % 256)
    (buf.getD (4 + 4 * k + 2) 0 % 256) (buf.getD (4 + 4 * k + 3) 0 % 256)

/-- An address the float-read parser stores to `outputLevels`. -/
def isOutAddr (a : Nat) : Prop :=
  a = 0x4A ∨ a = 0x4B ∨ a = 0x4C ∨ a = 0x4D

/-- An address the float-read parser stores to `inputLevels`. -/
def isInAddr (a : Nat) : Prop :=
  a = 0x44 ∨ a = 0x45

/-- State `st` is a fixed point of byte-read loop index `k`: whatever field
the address at `k` selects already holds the data byte at `k`. -/
def byteStationaryAt (st : DSPState) (buf : List Nat) (base k : Nat) : Prop :=
  ((base + k) % 256 = 0xD8 → st.preset = byteDataAt buf k) ∧
  ((base + k) % 256 = 0xA9 ∨ (base + k) % 256 = 0xD9 →
    st.source = byteDataAt buf k) ∧
  ((base + k) % 256 = 0xDA → st.volume = byteDataAt buf k) ∧
  ((base + k) % 256 = 0xDB → st.muted = byteDataAt buf k)

/-- State `st` is a fixed point of float-read loop index `k`: whatever level
entry the address at `k` selects already holds the word at `k`. -/
def floatStationaryAt (st : DSPState) (buf : List Nat) (base k : Nat) : Prop :=
  ((base + k) % 256 = 0x44 →
    st.inputLevels.set 0 (floatWordAt buf k) = st.inputLevels) ∧
  ((base + k) % 256 = 0x45 →
    st.inputLevels.set 1 (floatWordAt buf k) = st.inputLevels) ∧
  ((base + k) % 256 = 0x4A →
    st.outputLevels.set 0 (floatWordAt buf k) = st.outputLevels) ∧
  ((base + k) % 256 = 0x4B →
    st.outputLevels.set 1 (floatWordAt buf k) = st.outputLevels) ∧
  ((base + k) % 256 = 0x4C →
    st.outputLevels.set 2 (floatWordAt buf k) = st.outputLevels) ∧
  ((base + k) % 256 = 0x4D →
    st.outputLevels.set 3 (floatWordAt buf k) = st.outputLevels)

/-! ### Helper lemmas about buffer reads -/

theorem byteAt_of_lt (buf : List Nat) (i : Nat) (h : i < buf.length) :
    byteAt buf i = some (buf.getD i 0 % 256) := by
  simp [byteAt, List.get?_eq_getElem?, List.getElem?_eq_getElem h,
        List.getD_eq_getElem _ _ h]

theorem byteAt_of_le (buf : List Nat) (i : Nat) (h : buf.length ≤ i) :
    byteAt buf i = none := by
  simp [byteAt, List.get?_eq_getElem?, List.getElem?_eq_none h]

theorem byteAt_isSome_iff (buf : List Nat) (i : Nat) :
    (byteAt buf i).isSome = true ↔ i < buf.length := by
  rcases Nat.lt_or_ge i buf.length with h | h
  · simp [byteAt_of_lt _ _ h, h]
  · simp [byteAt_of_le _ _ h]
    omega

theorem byteAt_lt (buf : List Nat) (i v : Nat) (h : byteAt buf i = some v) :
    v < 256 := by
  simp only [byteAt, Option.map_eq_some'] at h
  obtain ⟨w, -, rfl⟩ := h
  exact Nat.mod_lt _ (by omega)

/-! ### C2: oversized outbound command -/

/-- Claim C2, recorded failing input: the guard in `SendCommand` is
`command_length > 63`, so a 63-byte command is *not* rejected; building its
frame stores the checksum at offset 64 of the 64-byte buffer, out of bounds
(undefined behaviour), instead of nothing being handed to the transport. -/
theorem SendCommand_at_length_63_goes_out_of_bounds :
    SendCommand (List.replicate 63 0) = .oob := by decide

/-! ### C8: setVolume(float) -/

/-- Claim C8, recorded failing input: `setVolume(-10.0f)` clamps to -10 dB
and then computes `intVol = (-10) * 2 = -20`; converting the negative value
-20 to `uint8_t` is undefined behaviour (it can never yield the intended
byte 20 = -2·(-10) of the half-dB encoding). -/
theorem setVolumeFloat_neg10_is_undefined : setVolumeFloat (-10) = none := by
  have h : max (-127 : ℚ) (min 0 (-10 : ℚ)) * 2 = -20 := by norm_num
  rw [setVolumeFloat, h]
  norm_num [floatToUint8, cTruncate]

/-! ### C7: malformed float-read frame -/

/-- Claim C7: a float-read frame whose (wrapping) data length is not a
multiple of 4 is discarded: the state is returned unchanged and no
notification fires. -/
theorem parseFloatRead_malformed_discards (st : DSPState) (frame : List Nat)
    (h1 : 1 ≤ frame.length) (hm : dataLengthOf frame % 4 ≠ 0) :
    parseFloatReadResponse st frame = some (st, []) := by
  have h0 : byteAt frame 0 = some (frame.getD 0 0 % 256) := byteAt_of_lt _ _ h1
  rw [parseFloatReadResponse, h0]
  dsimp only
  rw [if_pos (by simpa [dataLengthOf] using hm)]

/-- Witness for C7 at the concrete frame `[9, 0x14, 0]`
(`dataLength = 9 - 4 = 5`, not a multiple of 4). -/
theorem parseFloatRead_malformed_discards_witness :
    parseFloatReadResponse initState [9, 0x14, 0] = some (initState, []) :=
  parseFloatRead_malformed_discards initState [9, 0x14, 0] (by decide) (by decide)

/-! ### C4: frame classification -/

/-- Claim C4: classification checks the three rules in order and exactly one
outcome occurs; an unroutable frame is discarded with the state unchanged and
no notification. -/
theorem ParseHIDData_classifies_in_order (st : DSPState) (frame : List Nat) :
    (byteAt frame 0 = some 0x01 ∧
      ParseHIDData st frame = parseDirectSetResponse st frame) ∨
    (¬ byteAt frame 0 = some 0x01 ∧
      (byteAt frame 1 = some 0x05 ∧ byteAt frame 2 = some 0xFF) ∧
      ParseHIDData st frame = parseByteReadResponse st frame) ∨
    (¬ byteAt frame 0 = some 0x01 ∧
      ¬ (byteAt frame 1 = some 0x05 ∧ byteAt frame 2 = some 0xFF) ∧
      (byteAt frame 1 = some 0x14 ∧ byteAt frame 2 = some 0x00) ∧
      ParseHIDData st frame = parseFloatReadResponse st frame) ∨
    (¬ byteAt frame 0 = some 0x01 ∧
      ¬ (byteAt frame 1 = some 0x05 ∧ byteAt frame 2 = some 0xFF) ∧
      ¬ (byteAt frame 1 = some 0x14 ∧ byteAt frame 2 = some 0x00) ∧
      ParseHIDData st frame = some (st, [])) := by
  by_cases h0 : byteAt frame 0 = some 0x01
  · exact Or.inl ⟨h0, by rw [ParseHIDData, if_pos h0]⟩
  · by_cases h1 : byteAt frame 1 = some 0x05 ∧ byteAt frame 2 = some 0xFF
    · exact Or.inr <| Or.inl ⟨h0, h1, by rw [ParseHIDData, if_neg h0, if_pos h1]⟩
    · by_cases h2 : byteAt frame 1 = some 0x14 ∧ byteAt frame 2 = some 0x00
      · exact Or.inr <| Or.inr <| Or.inl
          ⟨h0, h1, h2, by rw [ParseHIDData, if_neg h0, if_neg h1, if_pos h2]⟩
      · exact Or.inr <| Or.inr <| Or.inr
          ⟨h0, h1, h2, by rw [ParseHIDData, if_neg h0, if_neg h1, if_neg h2]⟩

/-! ### C9: direct-set frames touch exactly one field -/

/-- Claim C9: a direct-set frame modifies at most one of volume, muted,
source — opcode 0x42 touches only volume, 0x17 only muted, 0x34 only source —
and any other opcode leaves the whole state unchanged and fires nothing. -/
theorem parseDirectSet_touches_one_field (st : DSPState) (buf : List Nat)
    (h : 3 ≤ buf.length) :
    ∃ st' evs, parseDirectSetResponse st buf = some (st', evs) ∧
      (buf.getD 1 0 % 256 = 0x42 → st'.preset = st.preset ∧ st'.source = st.source ∧
        st'.muted = st.muted ∧ st'.inputLevels = st.inputLevels ∧
        st'.outputLevels = st.outputLevels ∧ ∀ e ∈ evs, e.isVolume = true) ∧
      (buf.getD 1 0 % 256 = 0x17 → st'.preset = st.preset ∧ st'.source = st.source ∧
        st'.volume = st.volume ∧ st'.inputLevels = st.inputLevels ∧
        st'.outputLevels = st.outputLevels ∧ ∀ e ∈ evs, e.isMuted = true) ∧
      (buf.getD 1 0 % 256 = 0x34 → st'.preset = st.preset ∧ st'.volume = st.volume ∧
        st'.muted = st.muted ∧ st'.inputLevels = st.inputLevels ∧
        st'.outputLevels = st.outputLevels ∧ ∀ e ∈ evs, e.isSource = true) ∧
      (buf.getD 1 0 % 256 ≠ 0x42 → buf.getD 1 0 % 256 ≠ 0x17 →
        buf.getD 1 0 % 256 ≠ 0x34 → st' = st ∧ evs = []) := by
  have h2 : byteAt buf 2 = some (buf.getD 2 0 % 256) := byteAt_of_lt _ _ (by omega)
  have h1 : byteAt buf 1 = some (buf.getD 1 0 % 256) := byteAt_of_lt _ _ (by omega)
  rw [parseDirectSetResponse, h1, h2]
  dsimp only
  by_cases e42 : buf.getD 1 0 % 256 = 0x42
  · rw [if_pos e42]
    refine ⟨_, _, rfl,
      fun _ => ⟨rfl, rfl, rfl, rfl, rfl, ?_⟩,
      fun e17 => absurd (e42.symm.trans e17) (by decide),
      fun e34 => absurd (e42.symm.trans e34) (by decide),
      fun hn _ _ => absurd e42 hn⟩
    intro e he
    revert he
    split <;> intro he <;> simp_all [Event.isVolume]
  · rw [if_neg e42]
    by_cases e17 : buf.getD 1 0 % 256 = 0x17
    · rw [if_pos e17]
      refine ⟨_, _, rfl,
        fun h42 => absurd (e17.symm.trans h42) (by decide),
        fun _ => ⟨rfl, rfl, rfl, rfl, rfl, ?_⟩,
        fun e34 => absurd (e17.symm.trans e34) (by decide),
        fun _ hn _ => absurd e17 hn⟩
      intro e he
      revert he
      split <;> intro he <;> simp_all [Event.isMuted]
    · rw [if_neg e17]
      by_cases e34 : buf.getD 1 0 % 256 = 0x34
      · rw [if_pos e34]
        refine ⟨_, _, rfl,
          fun h42 => absurd (e34.symm.trans h42) (by decide),
          fun h17 => absurd (e34.symm.trans h17) (by decide),
          fun _ => ⟨rfl, rfl, rfl, rfl, rfl, ?_⟩,
          fun _ _ hn => absurd e34 hn⟩
        intro e he
        revert he
        split <;> intro he <;> simp_all [Event.isSource]
      · rw [if_neg e34]
        exact ⟨st, [], rfl,
          fun h42 => absurd h42 e42,
          fun h17 => absurd h17 e17,
          fun h34 => absurd h34 e34,
          fun _ _ _ => ⟨rfl, rfl⟩⟩

/-! ### Write-buffer lemmas and C1: frame encoding -/

theorem Buf.wr_mem (b : Buf) (i v j : Nat) :
    (b.wr i v).mem j = if j = i then v % 256 else b.mem j := rfl

theorem Buf.wr_oob_of_lt (b : Buf) (i v : Nat) (h : i < 64) :
    (b.wr i v).oob = b.oob := by
  simp [Buf.wr, Nat.not_le.mpr h]

theorem Buf.wrList_mem (vs : List Nat) (b : Buf) (i j : Nat) :
    (b.wrList i vs).mem j =
      if i ≤ j ∧ j < i + vs.length then vs.getD (j - i) 0 % 256 else b.mem j := by
  induction vs generalizing b i with
  | nil => rw [Buf.wrList, if_neg (by simp only [List.length_nil]; omega)]
  | cons v vs ih =>
    rw [Buf.wrList, ih]
    by_cases hj : j = i
    · subst hj
      rw [if_neg (by omega), Buf.wr_mem, if_pos rfl,
          if_pos ⟨le_refl j, by simp only [List.length_cons]; omega⟩]
      simp
    · by_cases hj2 : i + 1 ≤ j ∧ j < i + 1 + vs.length
      · rw [if_pos hj2, if_pos (by simp only [List.length_cons]; omega)]
        have hsub : j - i = (j - (i + 1)) + 1 := by omega
        rw [hsub, List.getD_cons_succ]
      · rw [if_neg hj2, Buf.wr_mem, if_neg hj,
          if_neg (by simp only [List.length_cons]; omega)]

theorem Buf.wrList_oob_of_le (vs : List Nat) (b : Buf) (i : Nat)
    (h : i + vs.length ≤ 64) : (b.wrList i vs).oob = b.oob := by
  induction vs generalizing b i with
  | nil => rfl
  | cons v vs ih =>
    rw [Buf.wrList, ih _ _ (by simp only [List.length_cons] at h; omega),
        Buf.wr_oob_of_lt _ _ _ (by simp only [List.length_cons] at h; omega)]

theorem getD_replicate_of_lt (n k a : Nat) (h : k < n) :
    (List.replicate n a).getD k 0 = a := by
  rw [List.getD_eq_getElem _ _ (by simpa using h)]
  simp

theorem ofFn64_getD (f : Fin 64 → Nat) (j : Nat) (h : j < 64) :
    (List.ofFn f).getD j 0 = f ⟨j, h⟩ := by
  rw [List.getD_eq_getElem _ _ (by simpa using h)]
  exact List.getElem_ofFn f j (by simpa using h)

theorem sendHeaderBuf_mem (cmd : List Nat) (j : Nat) :
    (sendHeaderBuf cmd).mem j =
      if j = 0 then (cmd.length + 1) % 256
      else if j < cmd.length + 1 then cmd.getD (j - 1) 0 % 256
      else 0 := by
  rw [sendHeaderBuf, Buf.wrList_mem]
  by_cases h0 : j = 0
  · subst h0
    rw [if_neg (by omega), Buf.wr_mem, if_pos rfl, if_pos rfl]
  · rw [if_neg h0]
    by_cases h1 : j < cmd.length + 1
    · rw [if_pos ⟨by omega, by omega⟩, if_pos h1]
    · rw [if_neg (by omega), Buf.wr_mem, if_neg h0, if_neg h1]

theorem sendHeaderBuf_oob (cmd : List Nat) (h : cmd.length ≤ 63) :
    (sendHeaderBuf cmd).oob = false := by
  rw [sendHeaderBuf, Buf.wrList_oob_of_le _ _ _ (by omega),
      Buf.wr_oob_of_lt _ _ _ (by omega)]

theorem sendBuf_oob (cmd : List Nat) (h : cmd.length ≤ 62) :
    (sendBuf cmd).oob = false := by
  rw [sendBuf,
      Buf.wrList_oob_of_le _ _ _ (by simp only [List.length_replicate]; omega),
      Buf.wr_oob_of_lt _ _ _ (by omega), sendHeaderBuf_oob cmd (by omega)]

theorem sendBuf_mem_low (cmd : List Nat) (k : Nat) (hk : k < cmd.length + 1) :
    (sendBuf cmd).mem k = (sendHeaderBuf cmd).mem k := by
  rw [sendBuf, Buf.wrList_mem, if_neg (by omega), Buf.wr_mem, if_neg (by omega)]

theorem sendBuf_mem_checksum (cmd : List Nat) :
    (sendBuf cmd).mem (cmd.length + 1) = sendChecksum cmd % 256 := by
  rw [sendBuf, Buf.wrList_mem, if_neg (by omega), Buf.wr_mem, if_pos rfl]

theorem sendBuf_mem_pad (cmd : List Nat) (j : Nat) (h1 : cmd.length + 2 ≤ j)
    (h2 : j < 64) : (sendBuf cmd).mem j = 0xFF := by
  rw [sendBuf, Buf.wrList_mem,
      if_pos ⟨h1, by simp only [List.length_replicate]; omega⟩,
      getD_replicate_of_lt _ _ _ (by omega)]

theorem Checksum_lt (data : List Nat) : Checksum data < 256 :=
  Nat.mod_lt _ (by omega)

theorem SendCommand_eq_sent (cmd : List Nat) (h : cmd.length ≤ 62) :
    SendCommand cmd = .sent (List.ofFn fun i : Fin 64 => (sendBuf cmd).mem i) := by
  rw [SendCommand, if_neg (by omega), if_neg (by simp [sendBuf_oob cmd h])]

/-- Claim C1: for every payload of length `L ≤ 61` (made of bytes), exactly
one 64-byte frame is emitted; its byte 0 is `L + 1`, bytes `1..L` are the
payload verbatim, byte `L + 1` is the checksum of frame bytes `0..L`, and
every byte from `L + 2` through 63 is `0xFF`. -/
theorem SendCommand_frame_format (cmd : List Nat) (hL : cmd.length ≤ 61)
    (hbytes : ∀ b ∈ cmd, b < 256) :
    ∃ frame, SendCommand cmd = .sent frame ∧ frame.length = 64 ∧
      frame.getD 0 0 = cmd.length + 1 ∧
      (∀ i, i < cmd.length → frame.getD (i + 1) 0 = cmd.getD i 0) ∧
      frame.getD (cmd.length + 1) 0 = Checksum (frame.take (cmd.length + 1)) ∧
      (∀ j, cmd.length + 2 ≤ j → j < 64 → frame.getD j 0 = 0xFF) := by
  refine ⟨List.ofFn fun i : Fin 64 => (sendBuf cmd).mem i,
    SendCommand_eq_sent cmd (by omega), by simp, ?_, ?_, ?_, ?_⟩
  · rw [ofFn64_getD _ 0 (by omega), sendBuf_mem_low cmd 0 (by omega),
        sendHeaderBuf_mem, if_pos rfl, Nat.mod_eq_of_lt (by omega)]
  · intro i hi
    rw [ofFn64_getD _ (i + 1) (by omega), sendBuf_mem_low cmd (i + 1) (by omega),
        sendHeaderBuf_mem, if_neg (by omega), if_pos (by omega)]
    simp only [Nat.add_sub_cancel]
    have hmem : cmd.getD i 0 ∈ cmd := by
      rw [List.getD_eq_getElem _ _ hi]
      exact List.getElem_mem hi
    exact Nat.mod_eq_of_lt (hbytes _ hmem)
  · have htake : (List.ofFn fun i : Fin 64 => (sendBuf cmd).mem i).take (cmd.length + 1)
        = List.ofFn fun i : Fin (cmd.length + 1) => (sendHeaderBuf cmd).mem i := by
      apply List.ext_getElem
      · simp
        omega
      · intro k hk1 hk2
        simp only [List.length_take, List.length_ofFn] at hk1 hk2
        rw [List.getElem_take, List.getElem_ofFn, List.getElem_ofFn]
        exact sendBuf_mem_low cmd k (by omega)
    have hlt : sendChecksum cmd < 256 := by rw [sendChecksum]; exact Checksum_lt _
    rw [ofFn64_getD _ (cmd.length + 1) (by omega), sendBuf_mem_checksum, htake,
        Nat.mod_eq_of_lt hlt]
    rfl
  · intro j h1 h2
    rw [ofFn64_getD _ j h2, sendBuf_mem_pad cmd j h1 h2]

/-- Witness for C1 at the concrete two-byte command `[0x42, 0x14]`
(the `setVolume(20)` command of the spec's end-to-end example). -/
theorem SendCommand_frame_format_witness :
    ∃ frame, SendCommand [0x42, 0x14] = .sent frame ∧ frame.length = 64 ∧
      frame.getD 0 0 = ([0x42, 0x14] : List Nat).length + 1 ∧
      (∀ i, i < ([0x42, 0x14] : List Nat).length →
        frame.getD (i + 1) 0 = ([0x42, 0x14] : List Nat).getD i 0) ∧
      frame.getD (([0x42, 0x14] : List Nat).length + 1) 0 =
        Checksum (frame.take (([0x42, 0x14] : List Nat).length + 1)) ∧
      (∀ j, ([0x42, 0x14] : List Nat).length + 2 ≤ j → j < 64 →
        frame.getD j 0 = 0xFF) :=
  SendCommand_frame_format [0x42, 0x14] (by decide) (by decide)

/-- Witness for C9 at the concrete direct-set volume frame `[1, 0x42, 20]`. -/
theorem parseDirectSet_touches_one_field_witness :
    ∃ st' evs, parseDirectSetResponse initState [1, 0x42, 20] = some (st', evs) ∧
      (([1, 0x42, 20] : List Nat).getD 1 0 % 256 = 0x42 →
        st'.preset = initState.preset ∧ st'.source = initState.source ∧
        st'.muted = initState.muted ∧ st'.inputLevels = initState.inputLevels ∧
        st'.outputLevels = initState.outputLevels ∧ ∀ e ∈ evs, e.isVolume = true) ∧
      (([1, 0x42, 20] : List Nat).getD 1 0 % 256 = 0x17 →
        st'.preset = initState.preset ∧ st'.source = initState.source ∧
        st'.volume = initState.volume ∧ st'.inputLevels = initState.inputLevels ∧
        st'.outputLevels = initState.outputLevels ∧ ∀ e ∈ evs, e.isMuted = true) ∧
      (([1, 0x42, 20] : List Nat).getD 1 0 % 256 = 0x34 →
        st'.preset = initState.preset ∧ st'.volume = initState.volume ∧
        st'.muted = initState.muted ∧ st'.inputLevels = initState.inputLevels ∧
        st'.outputLevels = initState.outputLevels ∧ ∀ e ∈ evs, e.isSource = true) ∧
      (([1, 0x42, 20] : List Nat).getD 1 0 % 256 ≠ 0x42 →
        ([1, 0x42, 20] : List Nat).getD 1 0 % 256 ≠ 0x17 →
        ([1, 0x42, 20] : List Nat).getD 1 0 % 256 ≠ 0x34 → st' = initState ∧ evs = []) :=
  parseDirectSet_touches_one_field initState [1, 0x42, 20] (by decide)

/-! ### Byte-read loop infrastructure -/

theorem byteStep_isSome (buf : List Nat) (base : Nat) (st : DSPState) (k : Nat) :
    (byteStep buf base st k).isSome = true ↔ k + 4 < buf.length := by
  rcases Nat.lt_or_ge (k + 4) buf.length with h | h
  · simp only [byteStep, byteAt_of_lt _ _ h]
    split_ifs <;> simp [h]
  · simp only [byteStep, byteAt_of_le _ _ h]
    simp
    omega

theorem byteStep_preset_eq (buf : List Nat) (base : Nat) (st : DSPState) (k : Nat)
    (hlt : k + 4 < buf.length) (hit : (base + k) % 256 = 0xD8) :
    byteStep buf base st k = some ({ st with preset := byteDataAt buf k }, []) := by
  rw [byteStep, byteAt_of_lt _ _ hlt]
  dsimp only
  rw [if_pos hit]
  rfl

theorem byteStep_source_eq (buf : List Nat) (base : Nat) (st : DSPState) (k : Nat)
    (hlt : k + 4 < buf.length)
    (hit : (base + k) % 256 = 0xA9 ∨ (base + k) % 256 = 0xD9) :
    byteStep buf base st k = some ({ st with source := byteDataAt buf k },
      if st.callbackAlways || (byteDataAt buf k != st.source)
      then [.sourceChange (byteDataAt buf k)] else []) := by
  rw [byteStep, byteAt_of_lt _ _ hlt]
  dsimp only
  rw [if_neg (by omega), if_pos hit]
  rfl

theorem byteStep_volume_eq (buf : List Nat) (base : Nat) (st : DSPState) (k : Nat)
    (hlt : k + 4 < buf.length) (hit : (base + k) % 256 = 0xDA) :
    byteStep buf base st k = some ({ st with volume := byteDataAt buf k },
      if st.callbackAlways || (byteDataAt buf k != st.volume)
      then [.volumeChange (byteDataAt buf k)] else []) := by
  rw [byteStep, byteAt_of_lt _ _ hlt]
  dsimp only
  rw [if_neg (by omega), if_neg (by omega), if_pos hit]
  rfl

theorem byteStep_muted_eq (buf : List Nat) (base : Nat) (st : DSPState) (k : Nat)
    (hlt : k + 4 < buf.length) (hit : (base + k) % 256 = 0xDB) :
    byteStep buf base st k = some ({ st with muted := byteDataAt buf k },
      if st.callbackAlways || (byteDataAt buf k != st.muted)
      then [.mutedChange (byteDataAt buf k != 0)] else []) := by
  rw [byteStep, byteAt_of_lt _ _ hlt]
  dsimp only
  rw [if_neg (by omega), if_neg (by omega), if_neg (by omega), if_pos hit]
  rfl

theorem byteStep_skip_eq (buf : List Nat) (base : Nat) (st : DSPState) (k : Nat)
    (hlt : k + 4 < buf.length) (h1 : (base + k) % 256 ≠ 0xD8)
    (h2 : ¬ ((base + k) % 256 = 0xA9 ∨ (base + k) % 256 = 0xD9))
    (h3 : (base + k) % 256 ≠ 0xDA) (h4 : (base + k) % 256 ≠ 0xDB) :
    byteStep buf base st k = some (st, []) := by
  rw [byteStep, byteAt_of_lt _ _ hlt]
  dsimp only
  rw [if_neg h1, if_neg h2, if_neg h3, if_neg h4]

theorem byteLoop_isSome (buf : List Nat) (base : Nat) (st : DSPState) (i r : Nat) :
    (byteLoop buf base st i r).isSome = true ↔
      ∀ k, k < r → i + k + 4 < buf.length := by
  induction r generalizing st i with
  | zero => simp [byteLoop]
  | succ r ih =>
    rw [byteLoop]
    cases hstep : byteStep buf base st i with
    | none =>
      have hlen : buf.length ≤ i + 4 := by
        rcases Nat.lt_or_ge (i + 4) buf.length with hc | hc
        · have h2 := (byteStep_isSome buf base st i).mpr hc
          rw [hstep] at h2
          simp at h2
        · exact hc
      simp only [Option.isSome_none, Bool.false_eq_true, false_iff]
      intro hall
      have := hall 0 (by omega)
      omega
    | some p =>
      obtain ⟨st', e⟩ := p
      have hlt : i + 4 < buf.length := by
        have h2 := byteStep_isSome buf base st i
        rw [hstep] at h2
        exact h2.mp rfl
      dsimp only
      cases hrec : byteLoop buf base st' (i + 1) r with
      | none =>
        have h2 := ih st' (i + 1)
        rw [hrec] at h2
        simp only [Option.isSome_none, Bool.false_eq_true, false_iff] at h2
        simp only [Option.isSome_none, Bool.false_eq_true, false_iff]
        intro hall
        apply h2
        intro k hk
        have := hall (k + 1) (by omega)
        omega
      | some q =>
        have h2 := ih st' (i + 1)
        rw [hrec] at h2
        simp only [Option.isSome_some, true_iff] at h2
        simp only [Option.isSome_some, true_iff]
        intro k hk
        rcases Nat.eq_zero_or_pos k with rfl | hkpos
        · omega
        · have := h2 (k - 1) (by omega)
          omega

theorem byteLoop_append (buf : List Nat) (base : Nat) (st : DSPState) (i a b : Nat) :
    byteLoop buf base st i (a + b) =
      (byteLoop buf base st i a).bind fun p =>
        (byteLoop buf base p.1 (i + a) b).map fun q => (q.1, p.2 ++ q.2) := by
  induction a generalizing st i with
  | zero =>
    rw [Nat.zero_add]
    show byteLoop buf base st i b =
      (byteLoop buf base st (i + 0) b).map fun q => (q.1, [] ++ q.2)
    rw [Nat.add_zero]
    cases byteLoop buf base st i b <;> simp
  | succ a ih =>
    rw [Nat.succ_add]
    have hidx : i + (a + 1) = i + 1 + a := by omega
    simp only [byteLoop, hidx]
    cases hstep : byteStep buf base st i with
    | none => rfl
    | some p =>
      obtain ⟨st', e⟩ := p
      dsimp only
      rw [ih]
      cases h1 : byteLoop buf base st' (i + 1) a with
      | none => rfl
      | some q =>
        cases h2 : byteLoop buf base q.1 (i + 1 + a) b <;> simp [h2]

/-- Exhaustive characterization of one byte-read loop iteration. -/
theorem byteStep_cases (buf : List Nat) (base : Nat) (st : DSPState) (k : Nat)
    (st' : DSPState) (e : List Event) (h : byteStep buf base st k = some (st', e)) :
    ((base + k) % 256 = 0xD8 ∧ st' = { st with preset := byteDataAt buf k } ∧
      e = []) ∨
    (((base + k) % 256 = 0xA9 ∨ (base + k) % 256 = 0xD9) ∧
      st' = { st with source := byteDataAt buf k } ∧
      e = if st.callbackAlways || (byteDataAt buf k != st.source)
          then [.sourceChange (byteDataAt buf k)] else []) ∨
    ((base + k) % 256 = 0xDA ∧ st' = { st with volume := byteDataAt buf k } ∧
      e = if st.callbackAlways || (byteDataAt buf k != st.volume)
          then [.volumeChange (byteDataAt buf k)] else []) ∨
    ((base + k) % 256 = 0xDB ∧ st' = { st with muted := byteDataAt buf k } ∧
      e = if st.callbackAlways || (byteDataAt buf k != st.muted)
          then [.mutedChange (byteDataAt buf k != 0)] else []) ∨
    ((base + k) % 256 ≠ 0xD8 ∧
      ¬ ((base + k) % 256 = 0xA9 ∨ (base + k) % 256 = 0xD9) ∧
      (base + k) % 256 ≠ 0xDA ∧ (base + k) % 256 ≠ 0xDB ∧ st' = st ∧ e = []) := by
  have hlt : k + 4 < buf.length := by
    have h2 := byteStep_isSome buf base st k
    rw [h] at h2
    exact h2.mp rfl
  by_cases hD8 : (base + k) % 256 = 0xD8
  · rw [byteStep_preset_eq buf base st k hlt hD8] at h
    simp only [Option.some.injEq, Prod.mk.injEq] at h
    exact Or.inl ⟨hD8, h.1.symm, h.2.symm⟩
  by_cases hsrc : (base + k) % 256 = 0xA9 ∨ (base + k) % 256 = 0xD9
  · rw [byteStep_source_eq buf base st k hlt hsrc] at h
    simp only [Option.some.injEq, Prod.mk.injEq] at h
    exact Or.inr <| Or.inl ⟨hsrc, h.1.symm, h.2.symm⟩
  by_cases hDA : (base + k) % 256 = 0xDA
  · rw [byteStep_volume_eq buf base st k hlt hDA] at h
    simp only [Option.some.injEq, Prod.mk.injEq] at h
    exact Or.inr <| Or.inr <| Or.inl ⟨hDA, h.1.symm, h.2.symm⟩
  by_cases hDB : (base + k) % 256 = 0xDB
  · rw [byteStep_muted_eq buf base st k hlt hDB] at h
    simp only [Option.some.injEq, Prod.mk.injEq] at h
    exact Or.inr <| Or.inr <| Or.inr <| Or.inl ⟨hDB, h.1.symm, h.2.symm⟩
  · rw [byteStep_skip_eq buf base st k hlt hD8 hsrc hDA hDB] at h
    simp only [Option.some.injEq, Prod.mk.injEq] at h
    exact Or.inr <| Or.inr <| Or.inr <| Or.inr ⟨hD8, hsrc, hDA, hDB, h.1.symm, h.2.symm⟩

/-- A projection of the state is preserved, and no matching event fires,
over a byte-read window that never hits the projection's addresses. -/
theorem byteLoop_proj_pres (P : DSPState → Nat) (evt : Event → Bool)
    (A : Nat → Prop) (buf : List Nat) (base : Nat)
    (hstep : ∀ st k st' e, byteStep buf base st k = some (st', e) →
      ¬ A ((base + k) % 256) → P st' = P st ∧ e.filter evt = [])
    (st : DSPState) (i r : Nat) :
    (∀ k, k < r → ¬ A ((base + (i + k)) % 256)) →
    ∀ st' e, byteLoop buf base st i r = some (st', e) →
      P st' = P st ∧ e.filter evt = [] := by
  induction r generalizing st i with
  | zero =>
    intro _ st' e h
    simp only [byteLoop, Option.some.injEq, Prod.mk.injEq] at h
    obtain ⟨h1, h2⟩ := h
    subst h1
    subst h2
    exact ⟨rfl, rfl⟩
  | succ r ih =>
    intro hno st' e h
    rw [byteLoop] at h
    cases hstep1 : byteStep buf base st i with
    | none => rw [hstep1] at h; exact Option.noConfusion h
    | some p =>
      obtain ⟨st1, e1⟩ := p
      rw [hstep1] at h
      dsimp only at h
      cases hrec : byteLoop buf base st1 (i + 1) r with
      | none => rw [hrec] at h; exact Option.noConfusion h
      | some q =>
        obtain ⟨st2, e2⟩ := q
        rw [hrec] at h
        dsimp only at h
        simp only [Option.some.injEq, Prod.mk.injEq] at h
        obtain ⟨hx1, hx2⟩ := h
        subst hx1
        subst hx2
        have h1 := hstep st i st1 e1 hstep1
          (by have := hno 0 (by omega); simpa using this)
        have h2 := ih st1 (i + 1)
          (fun k hk => by
            have hx := hno (k + 1) (by omega)
            have harith : i + 1 + k = i + (k + 1) := by omega
            rw [harith]
            exact hx)
          st2 e2 hrec
        refine ⟨h2.1.trans h1.1, ?_⟩
        rw [List.filter_append, h1.2, h2.2, List.append_nil]

/-- A one-iteration byte-read loop is exactly one step. -/
theorem byteLoop_one (buf : List Nat) (base : Nat) (st : DSPState) (i : Nat) :
    byteLoop buf base st i 1 = byteStep buf base st i := by
  rw [byteLoop]
  cases h : byteStep buf base st i with
  | none => rfl
  | some p =>
    obtain ⟨st', e⟩ := p
    simp [byteLoop]

/-- Splitting a successful byte-read loop run at an interior index `k`:
head segment, the step at `k`, and the tail segment. -/
theorem byteLoop_split (buf : List Nat) (base : Nat) (st : DSPState)
    (i r k : Nat) (hk : k < r) (st' : DSPState) (e : List Event)
    (h : byteLoop buf base st i r = some (st', e)) :
    ∃ s1 e1 s2 e2 s3 e3,
      byteLoop buf base st i k = some (s1, e1) ∧
      byteStep buf base s1 (i + k) = some (s2, e2) ∧
      byteLoop buf base s2 (i + k + 1) (r - (k + 1)) = some (s3, e3) ∧
      st' = s3 ∧ e = (e1 ++ e2) ++ e3 := by
  have hsplit : r = (k + 1) + (r - (k + 1)) := by omega
  rw [hsplit, byteLoop_append] at h
  cases hmid : byteLoop buf base st i (k + 1) with
  | none => rw [hmid] at h; exact Option.noConfusion h
  | some pmid =>
    obtain ⟨smid, emid⟩ := pmid
    rw [hmid] at h
    simp only [Option.some_bind] at h
    cases htail : byteLoop buf base smid (i + (k + 1)) (r - (k + 1)) with
    | none => rw [htail] at h; exact Option.noConfusion h
    | some ptail =>
      obtain ⟨s3, e3⟩ := ptail
      rw [htail] at h
      simp only [Option.map_some', Option.some.injEq, Prod.mk.injEq] at h
      obtain ⟨hx1, hx2⟩ := h
      subst hx1
      subst hx2
      rw [byteLoop_append buf base st i k 1] at hmid
      cases hhead : byteLoop buf base st i k with
      | none => rw [hhead] at hmid; exact Option.noConfusion hmid
      | some phead =>
        obtain ⟨s1, e1⟩ := phead
        rw [hhead] at hmid
        simp only [Option.some_bind, byteLoop_one] at hmid
        cases hstep : byteStep buf base s1 (i + k) with
        | none => rw [hstep] at hmid; exact Option.noConfusion hmid
        | some pstep =>
          obtain ⟨s2, e2⟩ := pstep
          rw [hstep] at hmid
          simp only [Option.map_some', Option.some.injEq, Prod.mk.injEq] at hmid
          obtain ⟨hy1, hy2⟩ := hmid
          subst hy1
          subst hy2
          have harith : i + (k + 1) = i + k + 1 := by omega
          rw [harith] at htail
          exact ⟨s1, e1, s2, e2, s3, e3, rfl, hstep, htail, rfl, rfl⟩

theorem byteAt_eq_some (buf : List Nat) (i v : Nat) (h : byteAt buf i = some v) :
    i < buf.length ∧ v = buf.getD i 0 % 256 := by
  rcases Nat.lt_or_ge i buf.length with hlt | hge
  · rw [byteAt_of_lt _ _ hlt] at h
    exact ⟨hlt, (Option.some_inj.mp h).symm⟩
  · rw [byteAt_of_le _ _ hge] at h
    exact Option.noConfusion h

/-- The byte-read loop never touches the notification mode or the level
arrays. -/
theorem byteLoop_misc_pres (buf : List Nat) (base : Nat) (st : DSPState)
    (i r : Nat) :
    ∀ st' e, byteLoop buf base st i r = some (st', e) →
      st'.callbackAlways = st.callbackAlways ∧
      st'.inputLevels = st.inputLevels ∧
      st'.outputLevels = st.outputLevels := by
  induction r generalizing st i with
  | zero =>
    intro st' e h
    simp only [byteLoop, Option.some.injEq, Prod.mk.injEq] at h
    obtain ⟨h1, h2⟩ := h
    subst h1
    exact ⟨rfl, rfl, rfl⟩
  | succ r ih =>
    intro st' e h
    rw [byteLoop] at h
    cases hstep1 : byteStep buf base st i with
    | none => rw [hstep1] at h; exact Option.noConfusion h
    | some p =>
      obtain ⟨st1, e1⟩ := p
      rw [hstep1] at h
      dsimp only at h
      cases hrec : byteLoop buf base st1 (i + 1) r with
      | none => rw [hrec] at h; exact Option.noConfusion h
      | some q =>
        obtain ⟨st2, e2⟩ := q
        rw [hrec] at h
        dsimp only at h
        simp only [Option.some.injEq, Prod.mk.injEq] at h
        obtain ⟨hx1, _⟩ := h
        subst hx1
        have hpres : st1.callbackAlways = st.callbackAlways ∧
            st1.inputLevels = st.inputLevels ∧
            st1.outputLevels = st.outputLevels := by
          rcases byteStep_cases buf base st i st1 e1 hstep1 with
            ⟨_, rfl, _⟩ | ⟨_, rfl, _⟩ | ⟨_, rfl, _⟩ | ⟨_, rfl, _⟩ |
            ⟨_, _, _, _, rfl, _⟩ <;> exact ⟨rfl, rfl, rfl⟩
        have hih := ih st1 (i + 1) st2 e2 hrec
        exact ⟨hih.1.trans hpres.1, hih.2.1.trans hpres.2.1,
          hih.2.2.trans hpres.2.2⟩

/-- `volume` and its notifications are untouched over a window with no
0xDA. -/
theorem byteLoop_volume_pres (buf : List Nat) (base : Nat) (st : DSPState)
    (i r : Nat) (hno : ∀ k, k < r → (base + (i + k)) % 256 ≠ 0xDA)
    (st' : DSPState) (e : List Event)
    (h : byteLoop buf base st i r = some (st', e)) :
    st'.volume = st.volume ∧ e.filter Event.isVolume = [] := by
  refine byteLoop_proj_pres (fun s => s.volume) Event.isVolume (fun a => a = 0xDA)
    buf base ?_ st i r hno st' e h
  intro st0 k st0' e0 hstep hna
  rcases byteStep_cases buf base st0 k st0' e0 hstep with
    ⟨ha, rfl, rfl⟩ | ⟨ha, rfl, rfl⟩ | ⟨ha, rfl, rfl⟩ | ⟨ha, rfl, rfl⟩ |
    ⟨h1, h2, h3, h4, rfl, rfl⟩
  · exact ⟨rfl, rfl⟩
  · exact ⟨rfl, by split <;> rfl⟩
  · exact absurd ha hna
  · exact ⟨rfl, by split <;> rfl⟩
  · exact ⟨rfl, rfl⟩

/-- `source` and its notifications are untouched over a window with no
0xA9 / 0xD9. -/
theorem byteLoop_source_pres (buf : List Nat) (base : Nat) (st : DSPState)
    (i r : Nat)
    (hno : ∀ k, k < r →
      ¬ ((base + (i + k)) % 256 = 0xA9 ∨ (base + (i + k)) % 256 = 0xD9))
    (st' : DSPState) (e : List Event)
    (h : byteLoop buf base st i r = some (st', e)) :
    st'.source = st.source ∧ e.filter Event.isSource = [] := by
  refine byteLoop_proj_pres (fun s => s.source) Event.isSource
    (fun a => a = 0xA9 ∨ a = 0xD9) buf base ?_ st i r hno st' e h
  intro st0 k st0' e0 hstep hna
  rcases byteStep_cases buf base st0 k st0' e0 hstep with
    ⟨ha, rfl, rfl⟩ | ⟨ha, rfl, rfl⟩ | ⟨ha, rfl, rfl⟩ | ⟨ha, rfl, rfl⟩ |
    ⟨h1, h2, h3, h4, rfl, rfl⟩
  · exact ⟨rfl, rfl⟩
  · exact absurd ha hna
  · exact ⟨rfl, by split <;> rfl⟩
  · exact ⟨rfl, by split <;> rfl⟩
  · exact ⟨rfl, rfl⟩

/-- `muted` and its notifications are untouched over a window with no 0xDB. -/
theorem byteLoop_muted_pres (buf : List Nat) (base : Nat) (st : DSPState)
    (i r : Nat) (hno : ∀ k, k < r → (base + (i + k)) % 256 ≠ 0xDB)
    (st' : DSPState) (e : List Event)
    (h : byteLoop buf base st i r = some (st', e)) :
    st'.muted = st.muted ∧ e.filter Event.isMuted = [] := by
  refine byteLoop_proj_pres (fun s => s.muted) Event.isMuted (fun a => a = 0xDB)
    buf base ?_ st i r hno st' e h
  intro st0 k st0' e0 hstep hna
  rcases byteStep_cases buf base st0 k st0' e0 hstep with
    ⟨ha, rfl, rfl⟩ | ⟨ha, rfl, rfl⟩ | ⟨ha, rfl, rfl⟩ | ⟨ha, rfl, rfl⟩ |
    ⟨h1, h2, h3, h4, rfl, rfl⟩
  · exact ⟨rfl, rfl⟩
  · exact ⟨rfl, by split <;> rfl⟩
  · exact ⟨rfl, by split <;> rfl⟩
  · exact absurd ha hna
  · exact ⟨rfl, rfl⟩

/-- `preset` is untouched over a window with no 0xD8. -/
theorem byteLoop_preset_pres (buf : List Nat) (base : Nat) (st : DSPState)
    (i r : Nat) (hno : ∀ k, k < r → (base + (i + k)) % 256 ≠ 0xD8)
    (st' : DSPState) (e : List Event)
    (h : byteLoop buf base st i r = some (st', e)) :
    st'.preset = st.preset := by
  refine (byteLoop_proj_pres (fun s => s.preset) (fun _ => false)
    (fun a => a = 0xD8) buf base ?_ st i r hno st' e h).1
  intro st0 k st0' e0 hstep hna
  rcases byteStep_cases buf base st0 k st0' e0 hstep with
    ⟨ha, rfl, rfl⟩ | ⟨ha, rfl, rfl⟩ | ⟨ha, rfl, rfl⟩ | ⟨ha, rfl, rfl⟩ |
    ⟨h1, h2, h3, h4, rfl, rfl⟩
  · exact absurd ha hna
  · exact ⟨rfl, by split <;> rfl⟩
  · exact ⟨rfl, by split <;> rfl⟩
  · exact ⟨rfl, by split <;> rfl⟩
  · exact ⟨rfl, rfl⟩

/-- After a window whose last hit of the projection's address set is at
index `k`, the projection holds the data byte read at `k`. -/
theorem byteLoop_proj_after (P : DSPState → Nat) (evt : Event → Bool)
    (A : Nat → Prop) (buf : List Nat) (base : Nat)
    (hstep_pres : ∀ st k st' e, byteStep buf base st k = some (st', e) →
      ¬ A ((base + k) % 256) → P st' = P st ∧ e.filter evt = [])
    (hstep_write : ∀ st k st' e, byteStep buf base st k = some (st', e) →
      A ((base + k) % 256) → P st' = byteDataAt buf k)
    (st : DSPState) (i r k : Nat) (hk : k < r)
    (hA : A ((base + (i + k)) % 256))
    (hafter : ∀ k', k < k' → k' < r → ¬ A ((base + (i + k')) % 256))
    (st' : DSPState) (e : List Event)
    (h : byteLoop buf base st i r = some (st', e)) :
    P st' = byteDataAt buf (i + k) := by
  obtain ⟨s1, e1, s2, e2, s3, e3, h1, h2, h3, hst, -⟩ :=
    byteLoop_split buf base st i r k hk st' e h
  rw [hst]
  have hw := hstep_write s1 (i + k) s2 e2 h2 hA
  have hp := byteLoop_proj_pres P evt A buf base hstep_pres s2 (i + k + 1)
    (r - (k + 1))
    (fun k' hk' => by
      have hx := hafter (k + 1 + k') (by omega) (by omega)
      have harith : i + k + 1 + k' = i + (k + 1 + k') := by omega
      rw [harith]
      exact hx)
    s3 e3 h3
  rw [hp.1, hw]

/-! ### C3: sentinel initial values -/

/-- Claim C3, counterexample: from a fresh on-change state, the first
byte-read frame carrying a legal preset value (2, with sentinel 4) updates
`preset` but fires *no* notification, because no preset callback is wired
(MiniDSP.cpp line 127 is commented out); so it is not true that the first
genuine observation of *each* field produces exactly one notification. -/
theorem preset_first_observation_fires_nothing :
    parseByteReadResponse onChangeInit [5, 0x05, 0xFF, 0xD8, 2] =
      some ({ onChangeInit with preset := 2 }, []) := by decide

/-! ### Float-read loop infrastructure -/

theorem byteAt_eq_none (buf : List Nat) (i : Nat) (h : byteAt buf i = none) :
    buf.length ≤ i := by
  rcases Nat.lt_or_ge i buf.length with hlt | hge
  · rw [byteAt_of_lt _ _ hlt] at h
    exact Option.noConfusion h
  · exact hge

theorem floatStep_isSome (buf : List Nat) (base : Nat) (st : DSPState)
    (nOut nIn : Bool) (k : Nat) :
    (floatStep buf base st nOut nIn k).isSome = true ↔
      4 + 4 * k + 3 < buf.length := by
  cases c0 : byteAt buf (4 + 4 * k) with
  | none =>
    have := byteAt_eq_none _ _ c0
    simp only [floatStep, c0]
    simp
    omega
  | some b0 =>
    cases c1 : byteAt buf (4 + 4 * k + 1) with
    | none =>
      have := byteAt_eq_none _ _ c1
      simp only [floatStep, c0, c1]
      simp
      omega
    | some b1 =>
      cases c2 : byteAt buf (4 + 4 * k + 2) with
      | none =>
        have := byteAt_eq_none _ _ c2
        simp only [floatStep, c0, c1, c2]
        simp
        omega
      | some b2 =>
        cases c3 : byteAt buf (4 + 4 * k + 3) with
        | none =>
          have := byteAt_eq_none _ _ c3
          simp only [floatStep, c0, c1, c2, c3]
          simp
          omega
        | some b3 =>
          have := (byteAt_eq_some _ _ _ c3).1
          simp only [floatStep, c0, c1, c2, c3]
          split_ifs <;> simp [this]

/-- Exhaustive characterization of one float-read loop iteration. -/
theorem floatStep_cases (buf : List Nat) (base : Nat) (st : DSPState)
    (nOut nIn : Bool) (k : Nat) (st' : DSPState) (o' n' : Bool)
    (h : floatStep buf base st nOut nIn k = some (st', o', n')) :
    ((base + k) % 256 = 0x44 ∧
      st' = { st with inputLevels := st.inputLevels.set 0 (floatWordAt buf k) } ∧
      o' = nOut ∧ n' = true) ∨
    ((base + k) % 256 = 0x45 ∧
      st' = { st with inputLevels := st.inputLevels.set 1 (floatWordAt buf k) } ∧
      o' = nOut ∧ n' = true) ∨
    ((base + k) % 256 = 0x4A ∧
      st' = { st with outputLevels := st.outputLevels.set 0 (floatWordAt buf k) } ∧
      o' = true ∧ n' = nIn) ∨
    ((base + k) % 256 = 0x4B ∧
      st' = { st with outputLevels := st.outputLevels.set 1 (floatWordAt buf k) } ∧
      o' = true ∧ n' = nIn) ∨
    ((base + k) % 256 = 0x4C ∧
      st' = { st with outputLevels := st.outputLevels.set 2 (floatWordAt buf k) } ∧
      o' = true ∧ n' = nIn) ∨
    ((base + k) % 256 = 0x4D ∧
      st' = { st with outputLevels := st.outputLevels.set 3 (floatWordAt buf k) } ∧
      o' = true ∧ n' = nIn) ∨
    (¬ isInAddr ((base + k) % 256) ∧ ¬ isOutAddr ((base + k) % 256) ∧
      st' = st ∧ o' = nOut ∧ n' = nIn) := by
  have hlt : 4 + 4 * k + 3 < buf.length := by
    have h2 := floatStep_isSome buf base st nOut nIn k
    rw [h] at h2
    exact h2.mp rfl
  rw [floatStep, byteAt_of_lt _ _ (by omega : 4 + 4 * k < buf.length),
      byteAt_of_lt _ _ (by omega : 4 + 4 * k + 1 < buf.length),
      byteAt_of_lt _ _ (by omega : 4 + 4 * k + 2 < buf.length),
      byteAt_of_lt _ _ hlt] at h
  dsimp only at h
  by_cases h44 : (base + k) % 256 = 0x44
  · rw [if_pos h44] at h
    simp only [Option.some.injEq, Prod.mk.injEq] at h
    exact Or.inl ⟨h44, h.1.symm, h.2.1.symm, h.2.2.symm⟩
  rw [if_neg h44] at h
  by_cases h45 : (base + k) % 256 = 0x45
  · rw [if_pos h45] at h
    simp only [Option.some.injEq, Prod.mk.injEq] at h
    exact Or.inr <| Or.inl ⟨h45, h.1.symm, h.2.1.symm, h.2.2.symm⟩
  rw [if_neg h45] at h
  by_cases h4A : (base + k) % 256 = 0x4A
  · rw [if_pos h4A] at h
    simp only [Option.some.injEq, Prod.mk.injEq] at h
    exact Or.inr <| Or.inr <| Or.inl ⟨h4A, h.1.symm, h.2.1.symm, h.2.2.symm⟩
  rw [if_neg h4A] at h
  by_cases h4B : (base + k) % 256 = 0x4B
  · rw [if_pos h4B] at h
    simp only [Option.some.injEq, Prod.mk.injEq] at h
    exact Or.inr <| Or.inr <| Or.inr <| Or.inl ⟨h4B, h.1.symm, h.2.1.symm, h.2.2.symm⟩
  rw [if_neg h4B] at h
  by_cases h4C : (base + k) % 256 = 0x4C
  · rw [if_pos h4C] at h
    simp only [Option.some.injEq, Prod.mk.injEq] at h
    exact Or.inr <| Or.inr <| Or.inr <| Or.inr <| Or.inl
      ⟨h4C, h.1.symm, h.2.1.symm, h.2.2.symm⟩
  rw [if_neg h4C] at h
  by_cases h4D : (base + k) % 256 = 0x4D
  · rw [if_pos h4D] at h
    simp only [Option.some.injEq, Prod.mk.injEq] at h
    exact Or.inr <| Or.inr <| Or.inr <| Or.inr <| Or.inr <| Or.inl
      ⟨h4D, h.1.symm, h.2.1.symm, h.2.2.symm⟩
  rw [if_neg h4D] at h
  simp only [Option.some.injEq, Prod.mk.injEq] at h
  exact Or.inr <| Or.inr <| Or.inr <| Or.inr <| Or.inr <| Or.inr
    ⟨by simp only [isInAddr]; omega, by simp only [isOutAddr]; omega,
     h.1.symm, h.2.1.symm, h.2.2.symm⟩

theorem floatLoop_isSome (buf : List Nat) (base : Nat) (st : DSPState)
    (nOut nIn : Bool) (i r : Nat) :
    (floatLoop buf base st nOut nIn i r).isSome = true ↔
      ∀ k, k < r → 4 + 4 * (i + k) + 3 < buf.length := by
  induction r generalizing st nOut nIn i with
  | zero => simp [floatLoop]
  | succ r ih =>
    rw [floatLoop]
    cases hstep : floatStep buf base st nOut nIn i with
    | none =>
      have hlen : buf.length ≤ 4 + 4 * i + 3 := by
        rcases Nat.lt_or_ge (4 + 4 * i + 3) buf.length with hc | hc
        · have h2 := (floatStep_isSome buf base st nOut nIn i).mpr hc
          rw [hstep] at h2
          simp at h2
        · exact hc
      simp only [Option.isSome_none, Bool.false_eq_true, false_iff]
      intro hall
      have := hall 0 (by omega)
      omega
    | some p =>
      obtain ⟨st1, o1, n1⟩ := p
      have hlt : 4 + 4 * i + 3 < buf.length := by
        have h2 := floatStep_isSome buf base st nOut nIn i
        rw [hstep] at h2
        exact h2.mp rfl
      dsimp only
      rw [ih]
      constructor
      · intro hall k hk
        rcases Nat.eq_zero_or_pos k with rfl | hkpos
        · omega
        · have := hall (k - 1) (by omega)
          omega
      · intro hall k hk
        have := hall (k + 1) (by omega)
        omega

/-- Recursion step for a "new levels" flag when the current address is in
the flag's group. -/
theorem flag_rec_hit (b result : Bool) (Q : Nat → Prop) (i r : Nat)
    (hrec : result = true ↔ true = true ∨ ∃ k, k < r ∧ Q (i + 1 + k))
    (h0 : Q i) :
    result = true ↔ b = true ∨ ∃ k, k < r + 1 ∧ Q (i + k) := by
  constructor
  · intro _
    exact Or.inr ⟨0, by omega, by simpa using h0⟩
  · intro _
    exact hrec.mpr (Or.inl rfl)

/-- Recursion step for a "new levels" flag when the current address is not
in the flag's group. -/
theorem flag_rec_skip (b result : Bool) (Q : Nat → Prop) (i r : Nat)
    (hrec : result = true ↔ b = true ∨ ∃ k, k < r ∧ Q (i + 1 + k))
    (h0 : ¬ Q i) :
    result = true ↔ b = true ∨ ∃ k, k < r + 1 ∧ Q (i + k) := by
  rw [hrec]
  constructor
  · rintro (hb | ⟨k, hk, hq⟩)
    · exact Or.inl hb
    · refine Or.inr ⟨k + 1, by omega, ?_⟩
      have harith : i + (k + 1) = i + 1 + k := by omega
      rw [harith]
      exact hq
  · rintro (hb | ⟨k, hk, hq⟩)
    · exact Or.inl hb
    · cases k with
      | zero => exact absurd (by simpa using hq) h0
      | succ k =>
        refine Or.inr ⟨k, by omega, ?_⟩
        have harith : i + 1 + k = i + (k + 1) := by omega
        rw [harith]
        exact hq

/-- The final `newOutputLevels` / `newInputLevels` flags hold iff they were
set initially or some address of the group occurs in the window. -/
theorem floatLoop_flags (buf : List Nat) (base : Nat) (r : Nat) :
    ∀ st nOut nIn i st' o' n',
      floatLoop buf base st nOut nIn i r = some (st', o', n') →
      (o' = true ↔ nOut = true ∨ ∃ k, k < r ∧ isOutAddr ((base + (i + k)) % 256)) ∧
      (n' = true ↔ nIn = true ∨ ∃ k, k < r ∧ isInAddr ((base + (i + k)) % 256)) := by
  induction r with
  | zero =>
    intro st nOut nIn i st' o' n' h
    simp only [floatLoop, Option.some.injEq, Prod.mk.injEq] at h
    obtain ⟨-, h2, h3⟩ := h
    subst h2
    subst h3
    simp
  | succ r ih =>
    intro st nOut nIn i st' o' n' h
    rw [floatLoop] at h
    cases hstep : floatStep buf base st nOut nIn i with
    | none => rw [hstep] at h; exact Option.noConfusion h
    | some p =>
      obtain ⟨st1, o1, n1⟩ := p
      rw [hstep] at h
      dsimp only at h
      have hih := ih st1 o1 n1 (i + 1) st' o' n' h
      rcases floatStep_cases buf base st nOut nIn i st1 o1 n1 hstep with
        ⟨ha, -, ho, hn⟩ | ⟨ha, -, ho, hn⟩ | ⟨ha, -, ho, hn⟩ |
        ⟨ha, -, ho, hn⟩ | ⟨ha, -, ho, hn⟩ | ⟨ha, -, ho, hn⟩ |
        ⟨hni, hno, -, ho, hn⟩
      · rw [ho, hn] at hih
        exact ⟨flag_rec_skip nOut o' (fun j => isOutAddr ((base + j) % 256)) i r
            hih.1 (by show ¬ isOutAddr ((base + i) % 256); rw [ha]; simp [isOutAddr]),
          flag_rec_hit nIn n' (fun j => isInAddr ((base + j) % 256)) i r
            hih.2 (by show isInAddr ((base + i) % 256); rw [ha]; simp [isInAddr])⟩
      · rw [ho, hn] at hih
        exact ⟨flag_rec_skip nOut o' (fun j => isOutAddr ((base + j) % 256)) i r
            hih.1 (by show ¬ isOutAddr ((base + i) % 256); rw [ha]; simp [isOutAddr]),
          flag_rec_hit nIn n' (fun j => isInAddr ((base + j) % 256)) i r
            hih.2 (by show isInAddr ((base + i) % 256); rw [ha]; simp [isInAddr])⟩
      · rw [ho, hn] at hih
        exact ⟨flag_rec_hit nOut o' (fun j => isOutAddr ((base + j) % 256)) i r
            hih.1 (by show isOutAddr ((base + i) % 256); rw [ha]; simp [isOutAddr]),
          flag_rec_skip nIn n' (fun j => isInAddr ((base + j) % 256)) i r
            hih.2 (by show ¬ isInAddr ((base + i) % 256); rw [ha]; simp [isInAddr])⟩
      · rw [ho, hn] at hih
        exact ⟨flag_rec_hit nOut o' (fun j => isOutAddr ((base + j) % 256)) i r
            hih.1 (by show isOutAddr ((base + i) % 256); rw [ha]; simp [isOutAddr]),
          flag_rec_skip nIn n' (fun j => isInAddr ((base + j) % 256)) i r
            hih.2 (by show ¬ isInAddr ((base + i) % 256); rw [ha]; simp [isInAddr])⟩
      · rw [ho, hn] at hih
        exact ⟨flag_rec_hit nOut o' (fun j => isOutAddr ((base + j) % 256)) i r
            hih.1 (by show isOutAddr ((base + i) % 256); rw [ha]; simp [isOutAddr]),
          flag_rec_skip nIn n' (fun j => isInAddr ((base + j) % 256)) i r
            hih.2 (by show ¬ isInAddr ((base + i) % 256); rw [ha]; simp [isInAddr])⟩
      · rw [ho, hn] at hih
        exact ⟨flag_rec_hit nOut o' (fun j => isOutAddr ((base + j) % 256)) i r
            hih.1 (by show isOutAddr ((base + i) % 256); rw [ha]; simp [isOutAddr]),
          flag_rec_skip nIn n' (fun j => isInAddr ((base + j) % 256)) i r
            hih.2 (by show ¬ isInAddr ((base + i) % 256); rw [ha]; simp [isInAddr])⟩
      · rw [ho, hn] at hih
        exact ⟨flag_rec_skip nOut o' (fun j => isOutAddr ((base + j) % 256)) i r
            hih.1 hno,
          flag_rec_skip nIn n' (fun j => isInAddr ((base + j) % 256)) i r
            hih.2 hni⟩

theorem floatLoop_append (buf : List Nat) (base : Nat) (st : DSPState)
    (nOut nIn : Bool) (i a b : Nat) :
    floatLoop buf base st nOut nIn i (a + b) =
      (floatLoop buf base st nOut nIn i a).bind fun p =>
        floatLoop buf base p.1 p.2.1 p.2.2 (i + a) b := by
  induction a generalizing st nOut nIn i with
  | zero =>
    rw [Nat.zero_add]
    show floatLoop buf base st nOut nIn i b =
      floatLoop buf base st nOut nIn (i + 0) b
    rw [Nat.add_zero]
  | succ a ih =>
    rw [Nat.succ_add]
    have hidx : i + (a + 1) = i + 1 + a := by omega
    simp only [floatLoop, hidx]
    cases hstep : floatStep buf base st nOut nIn i with
    | none => rfl
    | some p =>
      obtain ⟨st1, o1, n1⟩ := p
      dsimp only
      rw [ih]

theorem floatLoop_one (buf : List Nat) (base : Nat) (st : DSPState)
    (nOut nIn : Bool) (i : Nat) :
    floatLoop buf base st nOut nIn i 1 = floatStep buf base st nOut nIn i := by
  rw [floatLoop]
  cases h : floatStep buf base st nOut nIn i with
  | none => rfl
  | some p =>
    obtain ⟨st1, o1, n1⟩ := p
    rfl

theorem floatLoop_split (buf : List Nat) (base : Nat) (st : DSPState)
    (nOut nIn : Bool) (i r k : Nat) (hk : k < r) (st' : DSPState) (o' n' : Bool)
    (h : floatLoop buf base st nOut nIn i r = some (st', o', n')) :
    ∃ s1 o1 n1 s2 o2 n2,
      floatLoop buf base st nOut nIn i k = some (s1, o1, n1) ∧
      floatStep buf base s1 o1 n1 (i + k) = some (s2, o2, n2) ∧
      floatLoop buf base s2 o2 n2 (i + k + 1) (r - (k + 1)) = some (st', o', n') := by
  have hsplit : r = (k + 1) + (r - (k + 1)) := by omega
  rw [hsplit, floatLoop_append] at h
  cases hmid : floatLoop buf base st nOut nIn i (k + 1) with
  | none => rw [hmid] at h; exact Option.noConfusion h
  | some pmid =>
    obtain ⟨smid, omid, nmid⟩ := pmid
    rw [hmid] at h
    simp only [Option.some_bind] at h
    rw [floatLoop_append buf base st nOut nIn i k 1] at hmid
    cases hhead : floatLoop buf base st nOut nIn i k with
    | none => rw [hhead] at hmid; exact Option.noConfusion hmid
    | some phead =>
      obtain ⟨s1, o1, n1⟩ := phead
      rw [hhead] at hmid
      simp only [Option.some_bind, floatLoop_one] at hmid
      have harith : i + (k + 1) = i + k + 1 := by omega
      rw [harith] at h
      exact ⟨s1, o1, n1, smid, omid, nmid, rfl, hmid, h⟩

/-- Being "some list with the word already stored at `idx`" is invariant
under a float-read window that never writes `idx` of the projected array. -/
theorem floatLoop_set_inv (buf : List Nat) (base : Nat)
    (P : DSPState → List Nat) (idx w : Nat) (A : Nat → Prop)
    (hstep_other : ∀ st o n k st' o' n',
      floatStep buf base st o n k = some (st', o', n') →
      ¬ A ((base + k) % 256) →
      P st' = P st ∨ ∃ j v, j ≠ idx ∧ P st' = (P st).set j v) (r : Nat) :
    ∀ st o n i, (∀ k, k < r → ¬ A ((base + (i + k)) % 256)) →
    (∃ X : List Nat, P st = X.set idx w) →
    ∀ st' o' n', floatLoop buf base st o n i r = some (st', o', n') →
    ∃ X : List Nat, P st' = X.set idx w := by
  induction r with
  | zero =>
    intro st o n i _ hInv st' o' n' h
    simp only [floatLoop, Option.some.injEq, Prod.mk.injEq] at h
    obtain ⟨h1, -, -⟩ := h
    subst h1
    exact hInv
  | succ r ih =>
    intro st o n i hno hInv st' o' n' h
    rw [floatLoop] at h
    cases hstep : floatStep buf base st o n i with
    | none => rw [hstep] at h; exact Option.noConfusion h
    | some p =>
      obtain ⟨st1, o1, n1⟩ := p
      rw [hstep] at h
      dsimp only at h
      have hInv1 : ∃ X : List Nat, P st1 = X.set idx w := by
        rcases hstep_other st o n i st1 o1 n1 hstep
          (by have := hno 0 (by omega); simpa using this) with heq | ⟨j, v, hj, heq⟩
        · obtain ⟨X, hX⟩ := hInv
          exact ⟨X, heq.trans hX⟩
        · obtain ⟨X, hX⟩ := hInv
          refine ⟨X.set j v, ?_⟩
          rw [heq, hX, List.set_comm _ _ _ (Ne.symm hj)]
      exact ih st1 o1 n1 (i + 1)
        (fun k hk => by
          have hx := hno (k + 1) (by omega)
          have harith : i + 1 + k = i + (k + 1) := by omega
          rw [harith]
          exact hx)
        hInv1 st' o' n' h

/-- After a float-read window whose last write to entry `idx` of the
projected array happens at window index `k`, the final array is some list
with the word of index `k` stored at `idx`. -/
theorem floatLoop_arr_after (buf : List Nat) (base : Nat)
    (P : DSPState → List Nat) (idx : Nat) (A : Nat → Prop)
    (hstep_write : ∀ st o n k st' o' n',
      floatStep buf base st o n k = some (st', o', n') →
      A ((base + k) % 256) → P st' = (P st).set idx (floatWordAt buf k))
    (hstep_other : ∀ st o n k st' o' n',
      floatStep buf base st o n k = some (st', o', n') →
      ¬ A ((base + k) % 256) →
      P st' = P st ∨ ∃ j v, j ≠ idx ∧ P st' = (P st).set j v)
    (st : DSPState) (o n : Bool) (i r k : Nat) (hk : k < r)
    (hA : A ((base + (i + k)) % 256))
    (hafter : ∀ k', k < k' → k' < r → ¬ A ((base + (i + k')) % 256))
    (st' : DSPState) (o' n' : Bool)
    (h : floatLoop buf base st o n i r = some (st', o', n')) :
    ∃ X : List Nat, P st' = X.set idx (floatWordAt buf (i + k)) := by
  obtain ⟨s1, o1, n1, s2, o2, n2, h1, h2, h3⟩ :=
    floatLoop_split buf base st o n i r k hk st' o' n' h
  have hw := hstep_write s1 o1 n1 (i + k) s2 o2 n2 h2 hA
  exact floatLoop_set_inv buf base P idx (floatWordAt buf (i + k)) A
    hstep_other (r - (k + 1)) s2 o2 n2 (i + k + 1)
    (fun k' hk' => by
      have hx := hafter (k + 1 + k') (by omega) (by omega)
      have harith : i + k + 1 + k' = i + (k + 1 + k') := by omega
      rw [harith]
      exact hx)
    ⟨P s1, hw⟩ st' o' n' h3

/-- A state that is stationary at index `k` passes through the float step
at `k` unchanged. -/
theorem floatStep_stationary (buf : List Nat) (base : Nat) (st : DSPState)
    (k : Nat) (o n : Bool) (hS : floatStationaryAt st buf base k)
    (hlt : 4 + 4 * k + 3 < buf.length) :
    ∃ o' n', floatStep buf base st o n k = some (st, o', n') := by
  obtain ⟨p, hp⟩ : ∃ p, floatStep buf base st o n k = some p :=
    Option.isSome_iff_exists.mp ((floatStep_isSome buf base st o n k).mpr hlt)
  obtain ⟨st1, o1, n1⟩ := p
  refine ⟨o1, n1, ?_⟩
  rw [hp]
  obtain ⟨h44, h45, h4A, h4B, h4C, h4D⟩ := hS
  rcases floatStep_cases buf base st o n k st1 o1 n1 hp with
    ⟨ha, hst, -, -⟩ | ⟨ha, hst, -, -⟩ | ⟨ha, hst, -, -⟩ | ⟨ha, hst, -, -⟩ |
    ⟨ha, hst, -, -⟩ | ⟨ha, hst, -, -⟩ | ⟨-, -, hst, -, -⟩
  · subst hst; rw [h44 ha]
  · subst hst; rw [h45 ha]
  · subst hst; rw [h4A ha]
  · subst hst; rw [h4B ha]
  · subst hst; rw [h4C ha]
  · subst hst; rw [h4D ha]
  · subst hst; rfl

/-- A state stationary over the whole window passes through the float loop
unchanged. -/
theorem floatLoop_stationary (buf : List Nat) (base : Nat) (st : DSPState)
    (r : Nat) :
    ∀ i, (∀ k, k < r → floatStationaryAt st buf base (i + k)) →
    (∀ k, k < r → 4 + 4 * (i + k) + 3 < buf.length) →
    ∀ o n, ∃ o' n', floatLoop buf base st o n i r = some (st, o', n') := by
  induction r with
  | zero => intro i _ _ o n; exact ⟨o, n, rfl⟩
  | succ r ih =>
    intro i hS hb o n
    obtain ⟨o1, n1, hstep⟩ := floatStep_stationary buf base st i o n
      (by have := hS 0 (by omega); simpa using this)
      (by have := hb 0 (by omega); omega)
    obtain ⟨o2, n2, hloop⟩ := ih (i + 1)
      (fun k hk => by
        have hx := hS (k + 1) (by omega)
        have harith : i + 1 + k = i + (k + 1) := by omega
        rw [harith]
        exact hx)
      (fun k hk => by
        have := hb (k + 1) (by omega)
        omega)
      o1 n1
    refine ⟨o2, n2, ?_⟩
    rw [floatLoop, hstep]
    exact hloop

theorem bool_eq_of_iff {a b : Bool} (h : a = true ↔ b = true) : a = b := by
  cases a <;> cases b <;> simp_all

theorem outputHit_iff (frame : List Nat) :
    outputHit frame = true ↔
      ∃ k, k < nFloatsOf frame ∧ isOutAddr ((readBaseOf frame + k) % 256) := by
  simp only [outputHit, hitsFloatAddr, Bool.or_eq_true, List.any_eq_true,
    List.mem_range, beq_iff_eq, isOutAddr]
  constructor
  · rintro (((⟨k, hk, ha⟩ | ⟨k, hk, ha⟩) | ⟨k, hk, ha⟩) | ⟨k, hk, ha⟩)
    · exact ⟨k, hk, Or.inl ha⟩
    · exact ⟨k, hk, Or.inr (Or.inl ha)⟩
    · exact ⟨k, hk, Or.inr (Or.inr (Or.inl ha))⟩
    · exact ⟨k, hk, Or.inr (Or.inr (Or.inr ha))⟩
  · rintro ⟨k, hk, ha | ha | ha | ha⟩
    · exact Or.inl (Or.inl (Or.inl ⟨k, hk, ha⟩))
    · exact Or.inl (Or.inl (Or.inr ⟨k, hk, ha⟩))
    · exact Or.inl (Or.inr ⟨k, hk, ha⟩)
    · exact Or.inr ⟨k, hk, ha⟩

theorem inputHit_iff (frame : List Nat) :
    inputHit frame = true ↔
      ∃ k, k < nFloatsOf frame ∧ isInAddr ((readBaseOf frame + k) % 256) := by
  simp only [inputHit, hitsFloatAddr, Bool.or_eq_true, List.any_eq_true,
    List.mem_range, beq_iff_eq, isInAddr]
  constructor
  · rintro (⟨k, hk, ha⟩ | ⟨k, hk, ha⟩)
    · exact ⟨k, hk, Or.inl ha⟩
    · exact ⟨k, hk, Or.inr ha⟩
  · rintro ⟨k, hk, ha | ha⟩
    · exact Or.inl ⟨k, hk, ha⟩
    · exact Or.inr ⟨k, hk, ha⟩

/-! ### C6: float-read notifications are batched -/

/-- Claim C6: for a well-formed float-read frame, at most one
`onNewOutputLevels` and at most one `onNewInputLevels` call fire — output
first — each carrying the full final array, and each fires iff at least one
address of its group occurs in the frame's window; the `callbackAlways` flag
plays no role (the statement holds for every state). -/
theorem floatRead_batches_notifications (st : DSPState) (frame : List Nat)
    (st' : DSPState) (e : List Event)
    (h : parseFloatReadResponse st frame = some (st', e))
    (hwf : dataLengthOf frame % 4 = 0) :
    e = (if outputHit frame then [Event.newOutputLevels st'.outputLevels] else [])
      ++ (if inputHit frame then [Event.newInputLevels st'.inputLevels] else []) := by
  rw [parseFloatReadResponse] at h
  cases hb0 : byteAt frame 0 with
  | none => rw [hb0] at h; exact Option.noConfusion h
  | some b0 =>
    rw [hb0] at h
    dsimp only at h
    obtain ⟨hlen0, rfl⟩ := byteAt_eq_some frame 0 b0 hb0
    simp only [dataLengthOf] at hwf
    rw [if_neg (fun hc => hc hwf)] at h
    cases hb3 : byteAt frame 3 with
    | none => rw [hb3] at h; exact Option.noConfusion h
    | some base =>
      rw [hb3] at h
      dsimp only at h
      obtain ⟨hlen3, rfl⟩ := byteAt_eq_some frame 3 base hb3
      cases hloop : floatLoop frame (frame.getD 3 0 % 256) st false false 0
          ((frame.getD 0 0 % 256 + 252) % 256 / 4) with
      | none => rw [hloop] at h; exact Option.noConfusion h
      | some q =>
        obtain ⟨st'', o, n⟩ := q
        rw [hloop] at h
        dsimp only at h
        simp only [Option.some.injEq, Prod.mk.injEq] at h
        obtain ⟨hst, hev⟩ := h
        subst hst
        subst hev
        have hflags := floatLoop_flags frame (frame.getD 3 0 % 256)
          ((frame.getD 0 0 % 256 + 252) % 256 / 4) st false false 0 st'' o n hloop
        simp only [Nat.zero_add] at hflags
        have hob : o = outputHit frame := by
          apply bool_eq_of_iff
          rw [hflags.1, outputHit_iff]
          simp [nFloatsOf, dataLengthOf, readBaseOf]
        have hnb : n = inputHit frame := by
          apply bool_eq_of_iff
          rw [hflags.2, inputHit_iff]
          simp [nFloatsOf, dataLengthOf, readBaseOf]
        rw [hob, hnb]

/-- Witness for C6 at the concrete one-float frame `[8, 0x14, 0, 0x4A,
1, 0, 0, 0]` storing output level 1's word from the fresh state. -/
theorem floatRead_batches_notifications_witness :
    ([Event.newOutputLevels [1, 0, 0, 0]] : List Event) =
      (if outputHit [8, 0x14, 0, 0x4A, 1, 0, 0, 0]
       then [Event.newOutputLevels
         ({ initState with outputLevels := [1, 0, 0, 0] } : DSPState).outputLevels]
       else [])
      ++ (if inputHit [8, 0x14, 0, 0x4A, 1, 0, 0, 0]
          then [Event.newInputLevels
            ({ initState with outputLevels := [1, 0, 0, 0] } : DSPState).inputLevels]
          else []) :=
  floatRead_batches_notifications initState [8, 0x14, 0, 0x4A, 1, 0, 0, 0]
    { initState with outputLevels := [1, 0, 0, 0] }
    [Event.newOutputLevels [1, 0, 0, 0]] (by decide) (by decide)

/-! ### C10: window bounds of the read parsers -/

set_option maxRecDepth 4000 in
/-- Claim C10, counterexample: a 64-byte frame with `frame[0] = 65` violates
the claimed precondition `4 ≤ frame[0] ≤ 64`, yet the float-read parser
performs no out-of-bounds access at all — its wrapped data length 61 is not
a multiple of 4, so it discards the frame before indexing. -/
theorem floatRead_no_oob_despite_large_length :
    ¬ ((65 :: List.replicate 63 0 : List Nat).getD 0 0 % 256 ≤ 64) ∧
    parseFloatReadResponse initState (65 :: List.replicate 63 0) =
      some (initState, []) := by
  constructor
  · decide
  · decide

/-- Claim C10, amended: on a 64-byte frame, with `dataLength` the wrapping
`frame[0] - 4`, the byte-read parser stays in bounds iff
`4 ≤ frame[0] ≤ 64`; the float-read parser stays in bounds iff additionally
it may instead discard the frame, i.e. iff `4 ≤ frame[0] ≤ 64` or
`dataLength % 4 ≠ 0`. -/
theorem readParsers_window_bounds (st : DSPState) (frame : List Nat)
    (h64 : frame.length = 64) :
    ((parseByteReadResponse st frame).isSome = true ↔
      4 ≤ frame.getD 0 0 % 256 ∧ frame.getD 0 0 % 256 ≤ 64) ∧
    ((parseFloatReadResponse st frame).isSome = true ↔
      ((4 ≤ frame.getD 0 0 % 256 ∧ frame.getD 0 0 % 256 ≤ 64) ∨
        dataLengthOf frame % 4 ≠ 0)) := by
  have hb0 : byteAt frame 0 = some (frame.getD 0 0 % 256) :=
    byteAt_of_lt _ _ (by omega)
  have hb3 : byteAt frame 3 = some (frame.getD 3 0 % 256) :=
    byteAt_of_lt _ _ (by omega)
  have hm : frame.getD 0 0 % 256 < 256 := Nat.mod_lt _ (by omega)
  constructor
  · rw [parseByteReadResponse, hb0, hb3]
    dsimp only
    rw [byteLoop_isSome, h64]
    have key : ∀ m, m < 256 → (((m + 252) % 256 ≤ 60) ↔ (4 ≤ m ∧ m ≤ 64)) := by
      set_option maxRecDepth 4000 in decide
    constructor
    · intro hall
      refine (key _ hm).mp ?_
      by_contra hc
      push_neg at hc
      have := hall 60 (by omega)
      omega
    · intro hle k hk
      have := (key _ hm).mpr hle
      omega
  · rw [parseFloatReadResponse, hb0]
    dsimp only
    by_cases hmal : (frame.getD 0 0 % 256 + 252) % 256 % 4 ≠ 0
    · rw [if_pos hmal]
      simp only [Option.isSome_some, true_iff]
      right
      simpa [dataLengthOf] using hmal
    · rw [if_neg hmal, hb3]
      dsimp only
      push_neg at hmal
      cases hloop : floatLoop frame (frame.getD 3 0 % 256) st false false 0
          ((frame.getD 0 0 % 256 + 252) % 256 / 4) with
      | none =>
        simp only [Option.isSome_none, Bool.false_eq_true, false_iff]
        have hno := floatLoop_isSome frame (frame.getD 3 0 % 256) st false false 0
          ((frame.getD 0 0 % 256 + 252) % 256 / 4)
        rw [hloop] at hno
        simp only [Option.isSome_none, Bool.false_eq_true, false_iff] at hno
        intro hcon
        rcases hcon with ⟨h4, hle⟩ | habs
        · apply hno
          intro k hk
          rw [h64]
          have key2 : ∀ m, m < 256 → (m + 252) % 256 % 4 = 0 → 4 ≤ m → m ≤ 64 →
              (m + 252) % 256 / 4 ≤ 15 := by
            set_option maxRecDepth 4000 in decide
          have := key2 _ hm hmal h4 hle
          omega
        · exact habs (by simpa [dataLengthOf] using hmal)
      | some q =>
        obtain ⟨st'', o, n⟩ := q
        dsimp only
        simp only [Option.isSome_some, true_iff]
        left
        have hsome := floatLoop_isSome frame (frame.getD 3 0 % 256) st false false 0
          ((frame.getD 0 0 % 256 + 252) % 256 / 4)
        rw [hloop] at hsome
        simp only [Option.isSome_some, true_iff] at hsome
        have key3 : ∀ m, m < 256 → (m + 252) % 256 % 4 = 0 →
            ((m + 252) % 256 / 4 ≤ 15) → (4 ≤ m ∧ m ≤ 64) := by
          set_option maxRecDepth 4000 in decide
        apply key3 _ hm hmal
        by_contra hc
        push_neg at hc
        have := hsome 15 (by omega)
        rw [h64] at this
        omega

set_option maxRecDepth 30000 in
/-- Witness for C10 (amended) at the all-zero 64-byte frame
(`frame[0] = 0`, wrapped data length 252: both parsers reject). -/
theorem readParsers_window_bounds_witness :
    ((parseByteReadResponse initState (List.replicate 64 0)).isSome = true ↔
      4 ≤ (List.replicate 64 0 : List Nat).getD 0 0 % 256 ∧
        (List.replicate 64 0 : List Nat).getD 0 0 % 256 ≤ 64) ∧
    ((parseFloatReadResponse initState (List.replicate 64 0)).isSome = true ↔
      ((4 ≤ (List.replicate 64 0 : List Nat).getD 0 0 % 256 ∧
        (List.replicate 64 0 : List Nat).getD 0 0 % 256 ≤ 64) ∨
        dataLengthOf (List.replicate 64 0) % 4 ≠ 0)) :=
  readParsers_window_bounds initState (List.replicate 64 0) (by decide)

/-! ### C5 machinery: second-pass behaviour of the parsers -/

theorem hitsByteAddr_iff (frame : List Nat) (a : Nat) :
    hitsByteAddr frame a = true ↔
      ∃ k, k < dataLengthOf frame ∧ (readBaseOf frame + k) % 256 = a := by
  simp [hitsByteAddr, List.any_eq_true, List.mem_range]

theorem byteStep_volume_keep (buf : List Nat) (base : Nat) :
    ∀ st k st' e, byteStep buf base st k = some (st', e) →
      ¬ ((base + k) % 256 = 0xDA) →
      st'.volume = st.volume ∧ e.filter Event.isVolume = [] := by
  intro st0 k st0' e0 hstep hna
  rcases byteStep_cases buf base st0 k st0' e0 hstep with
    ⟨ha, rfl, rfl⟩ | ⟨ha, rfl, rfl⟩ | ⟨ha, rfl, rfl⟩ | ⟨ha, rfl, rfl⟩ |
    ⟨h1, h2, h3, h4, rfl, rfl⟩
  · exact ⟨rfl, rfl⟩
  · exact ⟨rfl, by split <;> rfl⟩
  · exact absurd ha hna
  · exact ⟨rfl, by split <;> rfl⟩
  · exact ⟨rfl, rfl⟩

theorem byteStep_volume_write (buf : List Nat) (base : Nat) :
    ∀ st k st' e, byteStep buf base st k = some (st', e) →
      (base + k) % 256 = 0xDA → st'.volume = byteDataAt buf k := by
  intro st0 k st0' e0 hstep ha
  rcases byteStep_cases buf base st0 k st0' e0 hstep with
    ⟨ha2, rfl, -⟩ | ⟨ha2, rfl, -⟩ | ⟨ha2, rfl, -⟩ | ⟨ha2, rfl, -⟩ |
    ⟨h1, h2, h3, h4, rfl, -⟩
  · omega
  · omega
  · rfl
  · omega
  · exact absurd ha h3

theorem byteStep_source_keep (buf : List Nat) (base : Nat) :
    ∀ st k st' e, byteStep buf base st k = some (st', e) →
      ¬ ((base + k) % 256 = 0xA9 ∨ (base + k) % 256 = 0xD9) →
      st'.source = st.source ∧ e.filter Event.isSource = [] := by
  intro st0 k st0' e0 hstep hna
  rcases byteStep_cases buf base st0 k st0' e0 hstep with
    ⟨ha, rfl, rfl⟩ | ⟨ha, rfl, rfl⟩ | ⟨ha, rfl, rfl⟩ | ⟨ha, rfl, rfl⟩ |
    ⟨h1, h2, h3, h4, rfl, rfl⟩
  · exact ⟨rfl, rfl⟩
  · exact absurd ha hna
  · exact ⟨rfl, by split <;> rfl⟩
  · exact ⟨rfl, by split <;> rfl⟩
  · exact ⟨rfl, rfl⟩

theorem byteStep_source_write (buf : List Nat) (base : Nat) :
    ∀ st k st' e, byteStep buf base st k = some (st', e) →
      ((base + k) % 256 = 0xA9 ∨ (base + k) % 256 = 0xD9) →
      st'.source = byteDataAt buf k := by
  intro st0 k st0' e0 hstep ha
  rcases byteStep_cases buf base st0 k st0' e0 hstep with
    ⟨ha2, rfl, -⟩ | ⟨ha2, rfl, -⟩ | ⟨ha2, rfl, -⟩ | ⟨ha2, rfl, -⟩ |
    ⟨h1, h2, h3, h4, rfl, -⟩
  · omega
  · rfl
  · omega
  · omega
  · exact absurd ha h2

theorem byteStep_muted_keep (buf : List Nat) (base : Nat) :
    ∀ st k st' e, byteStep buf base st k = some (st', e) →
      ¬ ((base + k) % 256 = 0xDB) →
      st'.muted = st.muted ∧ e.filter Event.isMuted = [] := by
  intro st0 k st0' e0 hstep hna
  rcases byteStep_cases buf base st0 k st0' e0 hstep with
    ⟨ha, rfl, rfl⟩ | ⟨ha, rfl, rfl⟩ | ⟨ha, rfl, rfl⟩ | ⟨ha, rfl, rfl⟩ |
    ⟨h1, h2, h3, h4, rfl, rfl⟩
  · exact ⟨rfl, rfl⟩
  · exact ⟨rfl, by split <;> rfl⟩
  · exact ⟨rfl, by split <;> rfl⟩
  · exact absurd ha hna
  · exact ⟨rfl, rfl⟩

theorem byteStep_muted_write (buf : List Nat) (base : Nat) :
    ∀ st k st' e, byteStep buf base st k = some (st', e) →
      (base + k) % 256 = 0xDB → st'.muted = byteDataAt buf k := by
  intro st0 k st0' e0 hstep ha
  rcases byteStep_cases buf base st0 k st0' e0 hstep with
    ⟨ha2, rfl, -⟩ | ⟨ha2, rfl, -⟩ | ⟨ha2, rfl, -⟩ | ⟨ha2, rfl, -⟩ |
    ⟨h1, h2, h3, h4, rfl, -⟩
  · omega
  · omega
  · omega
  · rfl
  · exact absurd ha h4

theorem byteStep_preset_keep (buf : List Nat) (base : Nat) :
    ∀ st k st' e, byteStep buf base st k = some (st', e) →
      ¬ ((base + k) % 256 = 0xD8) →
      st'.preset = st.preset ∧ e.filter (fun _ => false) = [] := by
  intro st0 k st0' e0 hstep hna
  rcases byteStep_cases buf base st0 k st0' e0 hstep with
    ⟨ha, rfl, rfl⟩ | ⟨ha, rfl, rfl⟩ | ⟨ha, rfl, rfl⟩ | ⟨ha, rfl, rfl⟩ |
    ⟨h1, h2, h3, h4, rfl, rfl⟩
  · exact absurd ha hna
  · exact ⟨rfl, by split <;> rfl⟩
  · exact ⟨rfl, by split <;> rfl⟩
  · exact ⟨rfl, by split <;> rfl⟩
  · exact ⟨rfl, rfl⟩

theorem byteStep_preset_write (buf : List Nat) (base : Nat) :
    ∀ st k st' e, byteStep buf base st k = some (st', e) →
      (base + k) % 256 = 0xD8 → st'.preset = byteDataAt buf k := by
  intro st0 k st0' e0 hstep ha
  rcases byteStep_cases buf base st0 k st0' e0 hstep with
    ⟨ha2, rfl, -⟩ | ⟨ha2, rfl, -⟩ | ⟨ha2, rfl, -⟩ | ⟨ha2, rfl, -⟩ |
    ⟨h1, h2, h3, h4, rfl, -⟩
  · rfl
  · omega
  · omega
  · omega
  · exact absurd ha h1

/-- A state stationary at a byte-read index passes through the step
unchanged, emitting nothing in on-change mode. -/
theorem byteStep_stationary (buf : List Nat) (base : Nat) (st : DSPState)
    (k : Nat) (hS : byteStationaryAt st buf base k) (hlt : k + 4 < buf.length) :
    ∃ e, byteStep buf base st k = some (st, e) ∧
      (st.callbackAlways = false → e = []) := by
  obtain ⟨p, hp⟩ : ∃ p, byteStep buf base st k = some p :=
    Option.isSome_iff_exists.mp ((byteStep_isSome buf base st k).mpr hlt)
  obtain ⟨st1, e1⟩ := p
  obtain ⟨hD8, hsrc, hDA, hDB⟩ := hS
  rcases byteStep_cases buf base st k st1 e1 hp with
    ⟨ha, hst, he⟩ | ⟨ha, hst, he⟩ | ⟨ha, hst, he⟩ | ⟨ha, hst, he⟩ |
    ⟨-, -, -, -, hst, he⟩
  · refine ⟨e1, ?_, fun _ => he⟩
    rw [hp, hst, ← hD8 ha]
  · refine ⟨e1, ?_, ?_⟩
    · rw [hp, hst, ← hsrc ha]
    · intro hmode
      rw [he, hmode, ← hsrc ha]
      simp
  · refine ⟨e1, ?_, ?_⟩
    · rw [hp, hst, ← hDA ha]
    · intro hmode
      rw [he, hmode, ← hDA ha]
      simp
  · refine ⟨e1, ?_, ?_⟩
    · rw [hp, hst, ← hDB ha]
    · intro hmode
      rw [he, hmode, ← hDB ha]
      simp
  · refine ⟨e1, ?_, fun _ => he⟩
    rw [hp, hst]

/-- A state stationary over the whole byte-read window passes through the
loop unchanged, emitting nothing in on-change mode. -/
theorem byteLoop_stationary (buf : List Nat) (base : Nat) (st : DSPState)
    (r : Nat) :
    ∀ i, (∀ k, k < r → byteStationaryAt st buf base (i + k)) →
    (∀ k, k < r → i + k + 4 < buf.length) →
    ∃ e, byteLoop buf base st i r = some (st, e) ∧
      (st.callbackAlways = false → e = []) := by
  induction r with
  | zero => intro i _ _; exact ⟨[], rfl, fun _ => rfl⟩
  | succ r ih =>
    intro i hS hb
    obtain ⟨e1, hstep, hmode1⟩ := byteStep_stationary buf base st i
      (by have := hS 0 (by omega); simpa using this)
      (by have := hb 0 (by omega); omega)
    obtain ⟨e2, hloop, hmode2⟩ := ih (i + 1)
      (fun k hk => by
        have hx := hS (k + 1) (by omega)
        have harith : i + 1 + k = i + (k + 1) := by omega
        rw [harith]
        exact hx)
      (fun k hk => by have := hb (k + 1) (by omega); omega)
    refine ⟨e1 ++ e2, ?_, fun hmode => by rw [hmode1 hmode, hmode2 hmode]; rfl⟩
    rw [byteLoop, hstep]
    dsimp only
    rw [hloop]

/-- The result of a full byte-read loop run over a window of fewer than 256
addresses that does not contain both source aliases 0xA9 and 0xD9 is
stationary at every window index. -/
theorem byteLoop_run_stationary (buf : List Nat) (base : Nat) (st : DSPState)
    (r : Nat) (hr : r < 256)
    (hsafe : ¬ ((∃ k, k < r ∧ (base + k) % 256 = 0xA9) ∧
                (∃ k, k < r ∧ (base + k) % 256 = 0xD9)))
    (st1 : DSPState) (e1 : List Event)
    (h : byteLoop buf base st 0 r = some (st1, e1)) :
    ∀ k, k < r → byteStationaryAt st1 buf base k := by
  intro k hk
  refine ⟨?_, ?_, ?_, ?_⟩
  · intro ha
    have := byteLoop_proj_after (fun s => s.preset) (fun _ => false)
      (fun a => a = 0xD8) buf base (byteStep_preset_keep buf base)
      (byteStep_preset_write buf base) st 0 r k hk (by simpa using ha)
      (fun k' h1 h2 hc => by omega) st1 e1 h
    simpa using this
  · intro ha
    have hafter : ∀ k', k < k' → k' < r →
        ¬ ((base + (0 + k')) % 256 = 0xA9 ∨ (base + (0 + k')) % 256 = 0xD9) := by
      intro k' h1 h2 hc
      rcases ha with ha | ha <;> rcases hc with hc | hc
      · omega
      · exact hsafe ⟨⟨k, hk, ha⟩, ⟨k', by omega, by simpa using hc⟩⟩
      · exact hsafe ⟨⟨k', by omega, by simpa using hc⟩, ⟨k, hk, ha⟩⟩
      · omega
    have := byteLoop_proj_after (fun s => s.source) Event.isSource
      (fun a => a = 0xA9 ∨ a = 0xD9) buf base (byteStep_source_keep buf base)
      (byteStep_source_write buf base) st 0 r k hk (by simpa using ha)
      hafter st1 e1 h
    simpa using this
  · intro ha
    have := byteLoop_proj_after (fun s => s.volume) Event.isVolume
      (fun a => a = 0xDA) buf base (byteStep_volume_keep buf base)
      (byteStep_volume_write buf base) st 0 r k hk (by simpa using ha)
      (fun k' h1 h2 hc => by omega) st1 e1 h
    simpa using this
  · intro ha
    have := byteLoop_proj_after (fun s => s.muted) Event.isMuted
      (fun a => a = 0xDB) buf base (byteStep_muted_keep buf base)
      (byteStep_muted_write buf base) st 0 r k hk (by simpa using ha)
      (fun k' h1 h2 hc => by omega) st1 e1 h
    simpa using this

theorem floatStep_in0_write (buf : List Nat) (base : Nat) :
    ∀ st o n k st' o' n', floatStep buf base st o n k = some (st', o', n') →
      (base + k) % 256 = 0x44 →
      st'.inputLevels = st.inputLevels.set 0 (floatWordAt buf k) := by
  intro st o n k st' o' n' h ha
  rcases floatStep_cases buf base st o n k st' o' n' h with
    ⟨ha2, rfl, -, -⟩ | ⟨ha2, rfl, -, -⟩ | ⟨ha2, rfl, -, -⟩ | ⟨ha2, rfl, -, -⟩ |
    ⟨ha2, rfl, -, -⟩ | ⟨ha2, rfl, -, -⟩ | ⟨hni, hno, rfl, -, -⟩
  · rfl
  · omega
  · omega
  · omega
  · omega
  · omega
  · exact absurd (Or.inl ha) hni

theorem floatStep_in0_other (buf : List Nat) (base : Nat) :
    ∀ st o n k st' o' n', floatStep buf base st o n k = some (st', o', n') →
      ¬ ((base + k) % 256 = 0x44) →
      st'.inputLevels = st.inputLevels ∨
        ∃ j v, j ≠ 0 ∧ st'.inputLevels = st.inputLevels.set j v := by
  intro st o n k st' o' n' h ha
  rcases floatStep_cases buf base st o n k st' o' n' h with
    ⟨ha2, rfl, -, -⟩ | ⟨ha2, rfl, -, -⟩ | ⟨ha2, rfl, -, -⟩ | ⟨ha2, rfl, -, -⟩ |
    ⟨ha2, rfl, -, -⟩ | ⟨ha2, rfl, -, -⟩ | ⟨hni, hno, rfl, -, -⟩
  · exact absurd ha2 ha
  · exact Or.inr ⟨1, floatWordAt buf k, by omega, rfl⟩
  · exact Or.inl rfl
  · exact Or.inl rfl
  · exact Or.inl rfl
  · exact Or.inl rfl
  · exact Or.inl rfl

theorem floatStep_in1_write (buf : List Nat) (base : Nat) :
    ∀ st o n k st' o' n', floatStep buf base st o n k = some (st', o', n') →
      (base + k) % 256 = 0x45 →
      st'.inputLevels = st.inputLevels.set 1 (floatWordAt buf k) := by
  intro st o n k st' o' n' h ha
  rcases floatStep_cases buf base st o n k st' o' n' h with
    ⟨ha2, rfl, -, -⟩ | ⟨ha2, rfl, -, -⟩ | ⟨ha2, rfl, -, -⟩ | ⟨ha2, rfl, -, -⟩ |
    ⟨ha2, rfl, -, -⟩ | ⟨ha2, rfl, -, -⟩ | ⟨hni, hno, rfl, -, -⟩
  · omega
  · rfl
  · omega
  · omega
  · omega
  · omega
  · exact absurd (Or.inr ha) hni

theorem floatStep_in1_other (buf : List Nat) (base : Nat) :
    ∀ st o n k st' o' n', floatStep buf base st o n k = some (st', o', n') →
      ¬ ((base + k) % 256 = 0x45) →
      st'.inputLevels = st.inputLevels ∨
        ∃ j v, j ≠ 1 ∧ st'.inputLevels = st.inputLevels.set j v := by
  intro st o n k st' o' n' h ha
  rcases floatStep_cases buf base st o n k st' o' n' h with
    ⟨ha2, rfl, -, -⟩ | ⟨ha2, rfl, -, -⟩ | ⟨ha2, rfl, -, -⟩ | ⟨ha2, rfl, -, -⟩ |
    ⟨ha2, rfl, -, -⟩ | ⟨ha2, rfl, -, -⟩ | ⟨hni, hno, rfl, -, -⟩
  · exact Or.inr ⟨0, floatWordAt buf k, by omega, rfl⟩
  · exact absurd ha2 ha
  · exact Or.inl rfl
  · exact Or.inl rfl
  · exact Or.inl rfl
  · exact Or.inl rfl
  · exact Or.inl rfl

theorem floatStep_out_write (buf : List Nat) (base : Nat) (a idx : Nat)
    (hspec : (a = 0x4A ∧ idx = 0) ∨ (a = 0x4B ∧ idx = 1) ∨
      (a = 0x4C ∧ idx = 2) ∨ (a = 0x4D ∧ idx = 3)) :
    ∀ st o n k st' o' n', floatStep buf base st o n k = some (st', o', n') →
      (base + k) % 256 = a →
      st'.outputLevels = st.outputLevels.set idx (floatWordAt buf k) := by
  intro st o n k st' o' n' h ha
  rcases floatStep_cases buf base st o n k st' o' n' h with
    ⟨ha2, rfl, -, -⟩ | ⟨ha2, rfl, -, -⟩ | ⟨ha2, rfl, -, -⟩ | ⟨ha2, rfl, -, -⟩ |
    ⟨ha2, rfl, -, -⟩ | ⟨ha2, rfl, -, -⟩ | ⟨hni, hno, rfl, -, -⟩
  · omega
  · omega
  · have : idx = 0 := by omega
    rw [this]
  · have : idx = 1 := by omega
    rw [this]
  · have : idx = 2 := by omega
    rw [this]
  · have : idx = 3 := by omega
    rw [this]
  · refine absurd ?_ hno
    rw [ha]
    simp only [isOutAddr]
    omega

theorem floatStep_out_other (buf : List Nat) (base : Nat) (a idx : Nat)
    (hspec : (a = 0x4A ∧ idx = 0) ∨ (a = 0x4B ∧ idx = 1) ∨
      (a = 0x4C ∧ idx = 2) ∨ (a = 0x4D ∧ idx = 3)) :
    ∀ st o n k st' o' n', floatStep buf base st o n k = some (st', o', n') →
      ¬ ((base + k) % 256 = a) →
      st'.outputLevels = st.outputLevels ∨
        ∃ j v, j ≠ idx ∧ st'.outputLevels = st.outputLevels.set j v := by
  intro st o n k st' o' n' h ha
  rcases floatStep_cases buf base st o n k st' o' n' h with
    ⟨ha2, rfl, -, -⟩ | ⟨ha2, rfl, -, -⟩ | ⟨ha2, rfl, -, -⟩ | ⟨ha2, rfl, -, -⟩ |
    ⟨ha2, rfl, -, -⟩ | ⟨ha2, rfl, -, -⟩ | ⟨hni, hno, rfl, -, -⟩
  · exact Or.inl rfl
  · exact Or.inl rfl
  · exact Or.inr ⟨0, floatWordAt buf k, by omega, rfl⟩
  · exact Or.inr ⟨1, floatWordAt buf k, by omega, rfl⟩
  · exact Or.inr ⟨2, floatWordAt buf k, by omega, rfl⟩
  · exact Or.inr ⟨3, floatWordAt buf k, by omega, rfl⟩
  · exact Or.inl rfl

/-- The result of a full float-read loop run over a window of fewer than
256 addresses is stationary at every window index. -/
theorem floatLoop_run_stationary (buf : List Nat) (base : Nat) (st : DSPState)
    (o n : Bool) (r : Nat) (hr : r < 256) (st1 : DSPState) (o1 n1 : Bool)
    (h : floatLoop buf base st o n 0 r = some (st1, o1, n1)) :
    ∀ k, k < r → floatStationaryAt st1 buf base k := by
  intro k hk
  refine ⟨?_, ?_, ?_, ?_, ?_, ?_⟩
  · intro ha
    obtain ⟨X, hX⟩ := floatLoop_arr_after buf base (fun s => s.inputLevels) 0
      (fun a => a = 0x44) (floatStep_in0_write buf base)
      (floatStep_in0_other buf base) st o n 0 r k hk (by simpa using ha)
      (fun k' h1 h2 hc => by omega) st1 o1 n1 h
    rw [Nat.zero_add] at hX
    rw [hX, List.set_set]
  · intro ha
    obtain ⟨X, hX⟩ := floatLoop_arr_after buf base (fun s => s.inputLevels) 1
      (fun a => a = 0x45) (floatStep_in1_write buf base)
      (floatStep_in1_other buf base) st o n 0 r k hk (by simpa using ha)
      (fun k' h1 h2 hc => by omega) st1 o1 n1 h
    rw [Nat.zero_add] at hX
    rw [hX, List.set_set]
  · intro ha
    obtain ⟨X, hX⟩ := floatLoop_arr_after buf base (fun s => s.outputLevels) 0
      (fun a => a = 0x4A)
      (floatStep_out_write buf base 0x4A 0 (Or.inl ⟨rfl, rfl⟩))
      (floatStep_out_other buf base 0x4A 0 (Or.inl ⟨rfl, rfl⟩))
      st o n 0 r k hk (by simpa using ha)
      (fun k' h1 h2 hc => by omega) st1 o1 n1 h
    rw [Nat.zero_add] at hX
    rw [hX, List.set_set]
  · intro ha
    obtain ⟨X, hX⟩ := floatLoop_arr_after buf base (fun s => s.outputLevels) 1
      (fun a => a = 0x4B)
      (floatStep_out_write buf base 0x4B 1 (Or.inr (Or.inl ⟨rfl, rfl⟩)))
      (floatStep_out_other buf base 0x4B 1 (Or.inr (Or.inl ⟨rfl, rfl⟩)))
      st o n 0 r k hk (by simpa using ha)
      (fun k' h1 h2 hc => by omega) st1 o1 n1 h
    rw [Nat.zero_add] at hX
    rw [hX, List.set_set]
  · intro ha
    obtain ⟨X, hX⟩ := floatLoop_arr_after buf base (fun s => s.outputLevels) 2
      (fun a => a = 0x4C)
      (floatStep_out_write buf base 0x4C 2 (Or.inr (Or.inr (Or.inl ⟨rfl, rfl⟩))))
      (floatStep_out_other buf base 0x4C 2 (Or.inr (Or.inr (Or.inl ⟨rfl, rfl⟩))))
      st o n 0 r k hk (by simpa using ha)
      (fun k' h1 h2 hc => by omega) st1 o1 n1 h
    rw [Nat.zero_add] at hX
    rw [hX, List.set_set]
  · intro ha
    obtain ⟨X, hX⟩ := floatLoop_arr_after buf base (fun s => s.outputLevels) 3
      (fun a => a = 0x4D)
      (floatStep_out_write buf base 0x4D 3 (Or.inr (Or.inr (Or.inr ⟨rfl, rfl⟩))))
      (floatStep_out_other buf base 0x4D 3 (Or.inr (Or.inr (Or.inr ⟨rfl, rfl⟩))))
      st o n 0 r k hk (by simpa using ha)
      (fun k' h1 h2 hc => by omega) st1 o1 n1 h
    rw [Nat.zero_add] at hX
    rw [hX, List.set_set]

/-- In always-notify mode, the byte-read loop's event list does not depend
on the starting state. -/
theorem byteLoop_events_of_always (buf : List Nat) (base : Nat) (r : Nat) :
    ∀ s t i s' e t' g, s.callbackAlways = true → t.callbackAlways = true →
      byteLoop buf base s i r = some (s', e) →
      byteLoop buf base t i r = some (t', g) → e = g := by
  induction r with
  | zero =>
    intro s t i s' e t' g _ _ h1 h2
    simp only [byteLoop, Option.some.injEq, Prod.mk.injEq] at h1 h2
    rw [← h1.2, ← h2.2]
  | succ r ih =>
    intro s t i s' e t' g hs ht h1 h2
    rw [byteLoop] at h1 h2
    cases hstep1 : byteStep buf base s i with
    | none => rw [hstep1] at h1; exact Option.noConfusion h1
    | some p =>
      obtain ⟨s1, e1⟩ := p
      rw [hstep1] at h1
      dsimp only at h1
      cases hstep2 : byteStep buf base t i with
      | none => rw [hstep2] at h2; exact Option.noConfusion h2
      | some q =>
        obtain ⟨t1, g1⟩ := q
        rw [hstep2] at h2
        dsimp only at h2
        cases hrec1 : byteLoop buf base s1 (i + 1) r with
        | none => rw [hrec1] at h1; exact Option.noConfusion h1
        | some p2 =>
          obtain ⟨s2, e2⟩ := p2
          rw [hrec1] at h1
          dsimp only at h1
          cases hrec2 : byteLoop buf base t1 (i + 1) r with
          | none => rw [hrec2] at h2; exact Option.noConfusion h2
          | some q2 =>
            obtain ⟨t2, g2⟩ := q2
            rw [hrec2] at h2
            dsimp only at h2
            simp only [Option.some.injEq, Prod.mk.injEq] at h1 h2
            have hs1 : s1.callbackAlways = true := by
              rcases byteStep_cases buf base s i s1 e1 hstep1 with
                ⟨-, rfl, -⟩ | ⟨-, rfl, -⟩ | ⟨-, rfl, -⟩ | ⟨-, rfl, -⟩ |
                ⟨-, -, -, -, rfl, -⟩ <;> exact hs
            have ht1 : t1.callbackAlways = true := by
              rcases byteStep_cases buf base t i t1 g1 hstep2 with
                ⟨-, rfl, -⟩ | ⟨-, rfl, -⟩ | ⟨-, rfl, -⟩ | ⟨-, rfl, -⟩ |
                ⟨-, -, -, -, rfl, -⟩ <;> exact ht
            have hrec_eq : e2 = g2 := ih s1 t1 (i + 1) s2 e2 t2 g2 hs1 ht1 hrec1 hrec2
            have hstep_eq : e1 = g1 := by
              rcases byteStep_cases buf base s i s1 e1 hstep1 with
                ⟨ha, -, rfl⟩ | ⟨ha, -, rfl⟩ | ⟨ha, -, rfl⟩ | ⟨ha, -, rfl⟩ |
                ⟨ha, hb, hc, hd, -, rfl⟩ <;>
              rcases byteStep_cases buf base t i t1 g1 hstep2 with
                ⟨ha2, -, rfl⟩ | ⟨ha2, -, rfl⟩ | ⟨ha2, -, rfl⟩ | ⟨ha2, -, rfl⟩ |
                ⟨ha2, hb2, hc2, hd2, -, rfl⟩ <;>
              first
                | rfl
                | omega
                | (exact absurd ha2 hb)
                | (exact absurd ha hb2)
                | (simp [hs, ht])
            rw [← h1.2, ← h2.2, hstep_eq, hrec_eq]

/-- Repeating a direct-set frame: the state is unchanged by the second
pass; in on-change mode the second pass emits nothing, in always mode it
repeats the first pass's notification. -/
theorem parseDirectSet_twice (st : DSPState) (buf : List Nat)
    (st1 : DSPState) (e1 : List Event)
    (h1 : parseDirectSetResponse st buf = some (st1, e1)) :
    ∃ e2, parseDirectSetResponse st1 buf = some (st1, e2) ∧
      (st.callbackAlways = false → e2 = []) ∧
      (st.callbackAlways = true → e2 = e1) := by
  rw [parseDirectSetResponse] at h1 ⊢
  cases hb2 : byteAt buf 2 with
  | none => rw [hb2] at h1; exact Option.noConfusion h1
  | some data =>
    cases hb1 : byteAt buf 1 with
    | none => rw [hb2, hb1] at h1; exact Option.noConfusion h1
    | some op =>
      rw [hb2, hb1] at h1
      dsimp only at h1 ⊢
      by_cases h42 : op = 0x42
      · rw [if_pos h42] at h1 ⊢
        simp only [Option.some.injEq, Prod.mk.injEq] at h1
        obtain ⟨hst, hev⟩ := h1
        subst hst
        refine ⟨_, rfl, ?_, ?_⟩
        · intro hmode
          simp [hmode]
        · intro hmode
          rw [← hev]
          simp [hmode]
      · rw [if_neg h42] at h1 ⊢
        by_cases h17 : op = 0x17
        · rw [if_pos h17] at h1 ⊢
          simp only [Option.some.injEq, Prod.mk.injEq] at h1
          obtain ⟨hst, hev⟩ := h1
          subst hst
          refine ⟨_, rfl, ?_, ?_⟩
          · intro hmode
            simp [hmode]
          · intro hmode
            rw [← hev]
            simp [hmode]
        · rw [if_neg h17] at h1 ⊢
          by_cases h34 : op = 0x34
          · rw [if_pos h34] at h1 ⊢
            simp only [Option.some.injEq, Prod.mk.injEq] at h1
            obtain ⟨hst, hev⟩ := h1
            subst hst
            refine ⟨_, rfl, ?_, ?_⟩
            · intro hmode
              simp [hmode]
            · intro hmode
              rw [← hev]
              simp [hmode]
          · rw [if_neg h34] at h1 ⊢
            simp only [Option.some.injEq, Prod.mk.injEq] at h1
            obtain ⟨hst, hev⟩ := h1
            subst hst
            exact ⟨[], rfl, fun _ => rfl, fun _ => hev⟩

/-! ### C5: processing the same frame twice -/

/-- Claim C5, counterexample: a valid float-read frame processed twice from
a fresh on-change state fires `onNewOutputLevels` on *both* passes — the
float parser sets its "new levels" flags whenever a group address is
present, with no change detection — so the second pass is not a
notification no-op in on-change mode. -/
theorem floatFrame_twice_fires_twice_on_change :
    ParseHIDData onChangeInit [8, 0x14, 0, 0x4A, 1, 0, 0, 0] =
      some ({ onChangeInit with outputLevels := [1, 0, 0, 0] },
        [Event.newOutputLevels [1, 0, 0, 0]]) ∧
    ParseHIDData { onChangeInit with outputLevels := [1, 0, 0, 0] }
        [8, 0x14, 0, 0x4A, 1, 0, 0, 0] =
      some ({ onChangeInit with outputLevels := [1, 0, 0, 0] },
        [Event.newOutputLevels [1, 0, 0, 0]]) := by
  constructor
  · decide
  · decide

/-- Claim C5, amended: processing the same frame twice in succession.  In
always-notify mode the second pass fires exactly the notifications of the
first, for every frame; float-read frames fire their batched level
callbacks identically on both passes regardless of mode; in on-change mode
the second pass of any non-float frame fires nothing, except for byte-read
frames whose address window contains both source aliases 0xA9 and 0xD9. -/
theorem process_frame_twice (st : DSPState) (frame : List Nat)
    (st1 : DSPState) (e1 : List Event)
    (h1 : ParseHIDData st frame = some (st1, e1)) :
    ∃ st2 e2, ParseHIDData st1 frame = some (st2, e2) ∧
      (st.callbackAlways = true → e2 = e1) ∧
      (isFloatFrame frame → e2 = e1) ∧
      (st.callbackAlways = false → ¬ isFloatFrame frame →
        ¬ (isByteFrame frame ∧ hitsByteAddr frame 0xA9 = true ∧
           hitsByteAddr frame 0xD9 = true) → e2 = []) := by
  by_cases hd : byteAt frame 0 = some 0x01
  · rw [ParseHIDData, if_pos hd] at h1
    obtain ⟨e2, heq, hf, ht⟩ := parseDirectSet_twice st frame st1 e1 h1
    refine ⟨st1, e2, ?_, ht, ?_, ?_⟩
    · rw [ParseHIDData, if_pos hd]
      exact heq
    · intro hfl
      exact absurd hd hfl.1
    · intro hmode _ _
      exact hf hmode
  · rw [ParseHIDData, if_neg hd] at h1
    by_cases hbyte : byteAt frame 1 = some 0x05 ∧ byteAt frame 2 = some 0xFF
    · rw [if_pos hbyte, parseByteReadResponse] at h1
      cases hb0 : byteAt frame 0 with
      | none => rw [hb0] at h1; exact Option.noConfusion h1
      | some b0 =>
        cases hb3 : byteAt frame 3 with
        | none => rw [hb0, hb3] at h1; exact Option.noConfusion h1
        | some base =>
          rw [hb0, hb3] at h1
          dsimp only at h1
          obtain ⟨hl0, hb0v⟩ := byteAt_eq_some frame 0 b0 hb0
          obtain ⟨hl3, hb3v⟩ := byteAt_eq_some frame 3 base hb3
          subst hb0v
          subst hb3v
          have hn : (frame.getD 0 0 % 256 + 252) % 256 < 256 :=
            Nat.mod_lt _ (by omega)
          have hbounds : ∀ k, k < (frame.getD 0 0 % 256 + 252) % 256 →
              0 + k + 4 < frame.length := by
            have hi := byteLoop_isSome frame (frame.getD 3 0 % 256) st 0
              ((frame.getD 0 0 % 256 + 252) % 256)
            rw [h1] at hi
            exact hi.mp rfl
          obtain ⟨p2, h2⟩ : ∃ p, byteLoop frame (frame.getD 3 0 % 256) st1 0
              ((frame.getD 0 0 % 256 + 252) % 256) = some p :=
            Option.isSome_iff_exists.mp
              ((byteLoop_isSome frame (frame.getD 3 0 % 256) st1 0
                ((frame.getD 0 0 % 256 + 252) % 256)).mpr hbounds)
          obtain ⟨st2, e2⟩ := p2
          have hmisc := byteLoop_misc_pres frame (frame.getD 3 0 % 256) st 0
            ((frame.getD 0 0 % 256 + 252) % 256) st1 e1 h1
          refine ⟨st2, e2, ?_, ?_, ?_, ?_⟩
          · rw [ParseHIDData, if_neg hd, if_pos hbyte, parseByteReadResponse,
              hb0, hb3]
            dsimp only
            exact h2
          · intro hmode
            have hflag1 : st1.callbackAlways = true := by
              rw [hmisc.1, hmode]
            exact byteLoop_events_of_always frame (frame.getD 3 0 % 256)
              ((frame.getD 0 0 % 256 + 252) % 256) st1 st 0 st2 e2 st1 e1
              hflag1 hmode h2 h1
          · intro hfl
            exact absurd hbyte hfl.2.1
          · intro hmode _ hsafe
            have hsafe2 : ¬ ((∃ k, k < (frame.getD 0 0 % 256 + 252) % 256 ∧
                  (frame.getD 3 0 % 256 + k) % 256 = 0xA9) ∧
                (∃ k, k < (frame.getD 0 0 % 256 + 252) % 256 ∧
                  (frame.getD 3 0 % 256 + k) % 256 = 0xD9)) := by
              rintro ⟨hA9, hD9⟩
              exact hsafe ⟨⟨hd, hbyte.1, hbyte.2⟩,
                (hitsByteAddr_iff frame 0xA9).mpr hA9,
                (hitsByteAddr_iff frame 0xD9).mpr hD9⟩
            have hstat := byteLoop_run_stationary frame (frame.getD 3 0 % 256)
              st ((frame.getD 0 0 % 256 + 252) % 256) hn hsafe2 st1 e1 h1
            obtain ⟨e2', h2', hmode2⟩ := byteLoop_stationary frame
              (frame.getD 3 0 % 256) st1 ((frame.getD 0 0 % 256 + 252) % 256) 0
              (fun k hk => by simpa using hstat k hk) hbounds
            rw [h2] at h2'
            simp only [Option.some.injEq, Prod.mk.injEq] at h2'
            rw [h2'.2]
            exact hmode2 (by rw [hmisc.1, hmode])
    · rw [if_neg hbyte] at h1
      by_cases hfl : byteAt frame 1 = some 0x14 ∧ byteAt frame 2 = some 0x00
      · rw [if_pos hfl, parseFloatReadResponse] at h1
        cases hb0 : byteAt frame 0 with
        | none => rw [hb0] at h1; exact Option.noConfusion h1
        | some b0 =>
          rw [hb0] at h1
          dsimp only at h1
          by_cases hmal : (b0 + 252) % 256 % 4 ≠ 0
          · rw [if_pos hmal] at h1
            simp only [Option.some.injEq, Prod.mk.injEq] at h1
            obtain ⟨hst, hev⟩ := h1
            refine ⟨st1, [], ?_, fun _ => hev, fun _ => hev, fun _ _ _ => rfl⟩
            rw [ParseHIDData, if_neg hd, if_neg hbyte, if_pos hfl,
              parseFloatReadResponse, hb0]
            dsimp only
            rw [if_pos hmal]
          · push_neg at hmal
            rw [if_neg (fun hc => hc hmal)] at h1
            cases hb3 : byteAt frame 3 with
            | none => rw [hb3] at h1; exact Option.noConfusion h1
            | some base =>
              rw [hb3] at h1
              dsimp only at h1
              cases hloop : floatLoop frame base st false false 0
                  ((b0 + 252) % 256 / 4) with
              | none => rw [hloop] at h1; exact Option.noConfusion h1
              | some q =>
                obtain ⟨stq, o, n⟩ := q
                rw [hloop] at h1
                dsimp only at h1
                simp only [Option.some.injEq, Prod.mk.injEq] at h1
                obtain ⟨hst, hev⟩ := h1
                subst hst
                have hr4 : (b0 + 252) % 256 / 4 < 256 := by omega
                have hstat := floatLoop_run_stationary frame base st false false
                  ((b0 + 252) % 256 / 4) hr4 stq o n hloop
                have hbounds : ∀ k, k < (b0 + 252) % 256 / 4 →
                    4 + 4 * (0 + k) + 3 < frame.length := by
                  have hi := floatLoop_isSome frame base st false false 0
                    ((b0 + 252) % 256 / 4)
                  rw [hloop] at hi
                  exact hi.mp rfl
                obtain ⟨o2, n2, h2⟩ := floatLoop_stationary frame base stq
                  ((b0 + 252) % 256 / 4) 0
                  (fun k hk => by simpa using hstat k hk) hbounds false false
                have hfl1 := floatLoop_flags frame base ((b0 + 252) % 256 / 4)
                  st false false 0 stq o n hloop
                have hfl2 := floatLoop_flags frame base ((b0 + 252) % 256 / 4)
                  stq false false 0 stq o2 n2 h2
                have ho : o2 = o := bool_eq_of_iff (hfl2.1.trans hfl1.1.symm)
                have hn2 : n2 = n := bool_eq_of_iff (hfl2.2.trans hfl1.2.symm)
                refine ⟨stq, e1, ?_, fun _ => rfl, fun _ => rfl,
                  fun _ hnf _ => absurd ⟨hd, hbyte, hfl.1, hfl.2⟩ hnf⟩
                rw [ParseHIDData, if_neg hd, if_neg hbyte, if_pos hfl,
                  parseFloatReadResponse, hb0]
                dsimp only
                rw [if_neg (fun hc => hc hmal), hb3]
                dsimp only
                rw [h2]
                dsimp only
                rw [ho, hn2, hev]
      · rw [if_neg hfl] at h1
        simp only [Option.some.injEq, Prod.mk.injEq] at h1
        obtain ⟨hst, hev⟩ := h1
        refine ⟨st1, [], ?_, fun _ => hev,
          fun hfl2 => absurd ⟨hfl2.2.2.1, hfl2.2.2.2⟩ hfl, fun _ _ _ => rfl⟩
        rw [ParseHIDData, if_neg hd, if_neg hbyte, if_neg hfl]

/-- Witness for C5 (amended) at the direct-set volume frame `[1, 0x42, 20]`
processed twice from the fresh (always-notify) state. -/
theorem process_frame_twice_witness :
    ∃ st2 e2,
      ParseHIDData { initState with volume := 20 } [1, 0x42, 20] =
        some (st2, e2) ∧
      (initState.callbackAlways = true → e2 = [Event.volumeChange 20]) ∧
      (isFloatFrame [1, 0x42, 20] → e2 = [Event.volumeChange 20]) ∧
      (initState.callbackAlways = false → ¬ isFloatFrame [1, 0x42, 20] →
        ¬ (isByteFrame [1, 0x42, 20] ∧ hitsByteAddr [1, 0x42, 20] 0xA9 = true ∧
           hitsByteAddr [1, 0x42, 20] 0xD9 = true) → e2 = []) :=
  process_frame_twice initState [1, 0x42, 20] { initState with volume := 20 }
    [Event.volumeChange 20] (by decide)

/-! ### C3 (continued): first observations from the on-change initial state -/

/-- From the fresh on-change state, a byte-read frame whose address window
contains 0xDA fires the volume callback exactly once: the sentinel
volume 0x100 can never equal the 8-bit data byte. -/
theorem byteRead_first_volume_fires (frame : List Nat) (st' : DSPState)
    (e : List Event)
    (hrun : parseByteReadResponse onChangeInit frame = some (st', e))
    (hDA : hitsByteAddr frame 0xDA = true) :
    (e.filter Event.isVolume).length = 1 := by
  rw [parseByteReadResponse] at hrun
  cases hb0 : byteAt frame 0 with
  | none => rw [hb0] at hrun; exact Option.noConfusion hrun
  | some b0 =>
    cases hb3 : byteAt frame 3 with
    | none => rw [hb0, hb3] at hrun; exact Option.noConfusion hrun
    | some base =>
      rw [hb0, hb3] at hrun
      dsimp only at hrun
      obtain ⟨-, rfl⟩ := byteAt_eq_some frame 0 b0 hb0
      obtain ⟨-, rfl⟩ := byteAt_eq_some frame 3 base hb3
      obtain ⟨k, hkn, hk⟩ := (hitsByteAddr_iff frame 0xDA).mp hDA
      have hn : dataLengthOf frame < 256 := Nat.mod_lt _ (by omega)
      have hloop : byteLoop frame (readBaseOf frame) onChangeInit 0
          (dataLengthOf frame) = some (st', e) := hrun
      obtain ⟨s1, e1, s2, e2, s3, e3, h1, h2, h3, hst, hev⟩ :=
        byteLoop_split frame (readBaseOf frame) onChangeInit 0
          (dataLengthOf frame) k hkn st' e hloop
      have hhead := byteLoop_volume_pres frame (readBaseOf frame) onChangeInit
        0 k (fun j hj => by omega) s1 e1 h1
      have hflag := byteLoop_misc_pres frame (readBaseOf frame) onChangeInit
        0 k s1 e1 h1
      have hlt : (0 + k) + 4 < frame.length := by
        have h2s := byteStep_isSome frame (readBaseOf frame) s1 (0 + k)
        rw [h2] at h2s
        exact h2s.mp rfl
      have hzk : 0 + k = k := Nat.zero_add k
      have hhit : (readBaseOf frame + (0 + k)) % 256 = 0xDA := by
        rw [hzk]
        exact hk
      rw [byteStep_volume_eq frame (readBaseOf frame) s1 (0 + k) hlt hhit] at h2
      have hchanged : (byteDataAt frame (0 + k) != s1.volume) = true := by
        have hdlt : byteDataAt frame (0 + k) < 256 := Nat.mod_lt _ (by omega)
        have hv : s1.volume = 256 := by
          rw [hhead.1]
          rfl
        rw [hv]
        simp only [bne_iff_ne, ne_eq]
        omega
      have hfl : s1.callbackAlways = false := by
        rw [hflag.1]
        rfl
      rw [hfl, hchanged] at h2
      simp only [Bool.false_or, if_pos] at h2
      have htail := byteLoop_volume_pres frame (readBaseOf frame) s2
        (0 + k + 1) (dataLengthOf frame - (k + 1))
        (fun j hj => by omega) s3 e3 h3
      simp only [Option.some.injEq, Prod.mk.injEq] at h2
      obtain ⟨hs2, he2⟩ := h2
      subst hev
      rw [List.filter_append, List.filter_append, hhead.2, htail.2, ← he2]
      rfl

/-- From the fresh on-change state, a byte-read frame whose address window
contains 0xDB and whose data byte there is a legal muted value (0 or 1)
fires the muted callback exactly once: the sentinel muted 2 differs from
every legal value. -/
theorem byteRead_first_muted_fires (frame : List Nat) (st' : DSPState)
    (e : List Event)
    (hrun : parseByteReadResponse onChangeInit frame = some (st', e))
    (hDB : hitsByteAddr frame 0xDB = true)
    (hlegal : ∀ k, k < dataLengthOf frame →
      (readBaseOf frame + k) % 256 = 0xDB → byteDataAt frame k < 2) :
    (e.filter Event.isMuted).length = 1 := by
  rw [parseByteReadResponse] at hrun
  cases hb0 : byteAt frame 0 with
  | none => rw [hb0] at hrun; exact Option.noConfusion hrun
  | some b0 =>
    cases hb3 : byteAt frame 3 with
    | none => rw [hb0, hb3] at hrun; exact Option.noConfusion hrun
    | some base =>
      rw [hb0, hb3] at hrun
      dsimp only at hrun
      obtain ⟨-, rfl⟩ := byteAt_eq_some frame 0 b0 hb0
      obtain ⟨-, rfl⟩ := byteAt_eq_some frame 3 base hb3
      obtain ⟨k, hkn, hk⟩ := (hitsByteAddr_iff frame 0xDB).mp hDB
      have hn : dataLengthOf frame < 256 := Nat.mod_lt _ (by omega)
      have hloop : byteLoop frame (readBaseOf frame) onChangeInit 0
          (dataLengthOf frame) = some (st', e) := hrun
      obtain ⟨s1, e1, s2, e2, s3, e3, h1, h2, h3, hst, hev⟩ :=
        byteLoop_split frame (readBaseOf frame) onChangeInit 0
          (dataLengthOf frame) k hkn st' e hloop
      have hhead := byteLoop_muted_pres frame (readBaseOf frame) onChangeInit
        0 k (fun j hj => by omega) s1 e1 h1
      have hflag := byteLoop_misc_pres frame (readBaseOf frame) onChangeInit
        0 k s1 e1 h1
      have hlt : (0 + k) + 4 < frame.length := by
        have h2s := byteStep_isSome frame (readBaseOf frame) s1 (0 + k)
        rw [h2] at h2s
        exact h2s.mp rfl
      have hzk : 0 + k = k := Nat.zero_add k
      have hhit : (readBaseOf frame + (0 + k)) % 256 = 0xDB := by
        rw [hzk]
        exact hk
      rw [byteStep_muted_eq frame (readBaseOf frame) s1 (0 + k) hlt hhit] at h2
      have hchanged : (byteDataAt frame (0 + k) != s1.muted) = true := by
        have hdlt : byteDataAt frame (0 + k) < 2 := by
          rw [hzk]
          exact hlegal k hkn hk
        have hv : s1.muted = 2 := by
          rw [hhead.1]
          rfl
        rw [hv]
        simp only [bne_iff_ne, ne_eq]
        omega
      have hfl : s1.callbackAlways = false := by
        rw [hflag.1]
        rfl
      rw [hfl, hchanged] at h2
      simp only [Bool.false_or, if_pos] at h2
      have htail := byteLoop_muted_pres frame (readBaseOf frame) s2
        (0 + k + 1) (dataLengthOf frame - (k + 1))
        (fun j hj => by omega) s3 e3 h3
      simp only [Option.some.injEq, Prod.mk.injEq] at h2
      obtain ⟨hs2, he2⟩ := h2
      subst hev
      rw [List.filter_append, List.filter_append, hhead.2, htail.2, ← he2]
      rfl

/-- From the fresh on-change state, a byte-read frame whose address window
contains exactly one of the source aliases 0xA9/0xD9, with a legal source
value (0-2) there, fires the source callback exactly once: the sentinel
source 3 differs from every legal value. -/
theorem byteRead_first_source_fires (frame : List Nat) (st' : DSPState)
    (e : List Event)
    (hrun : parseByteReadResponse onChangeInit frame = some (st', e))
    (hsrc : hitsByteAddr frame 0xA9 = true ∨ hitsByteAddr frame 0xD9 = true)
    (hnotboth : ¬ (hitsByteAddr frame 0xA9 = true ∧
      hitsByteAddr frame 0xD9 = true))
    (hlegal : ∀ k, k < dataLengthOf frame →
      (readBaseOf frame + k) % 256 = 0xA9 ∨
        (readBaseOf frame + k) % 256 = 0xD9 → byteDataAt frame k < 3) :
    (e.filter Event.isSource).length = 1 := by
  rw [parseByteReadResponse] at hrun
  cases hb0 : byteAt frame 0 with
  | none => rw [hb0] at hrun; exact Option.noConfusion hrun
  | some b0 =>
    cases hb3 : byteAt frame 3 with
    | none => rw [hb0, hb3] at hrun; exact Option.noConfusion hrun
    | some base =>
      rw [hb0, hb3] at hrun
      dsimp only at hrun
      obtain ⟨-, rfl⟩ := byteAt_eq_some frame 0 b0 hb0
      obtain ⟨-, rfl⟩ := byteAt_eq_some frame 3 base hb3
      obtain ⟨k, hkn, hk⟩ : ∃ k, k < dataLengthOf frame ∧
          ((readBaseOf frame + k) % 256 = 0xA9 ∨
           (readBaseOf frame + k) % 256 = 0xD9) := by
        rcases hsrc with hA9 | hD9
        · obtain ⟨k, hkn, hk⟩ := (hitsByteAddr_iff frame 0xA9).mp hA9
          exact ⟨k, hkn, Or.inl hk⟩
        · obtain ⟨k, hkn, hk⟩ := (hitsByteAddr_iff frame 0xD9).mp hD9
          exact ⟨k, hkn, Or.inr hk⟩
      have hn : dataLengthOf frame < 256 := Nat.mod_lt _ (by omega)
      have huniq : ∀ j, j < dataLengthOf frame →
          (readBaseOf frame + j) % 256 = 0xA9 ∨
            (readBaseOf frame + j) % 256 = 0xD9 → j = k := by
        intro j hj hjhit
        rcases hk with hk1 | hk1 <;> rcases hjhit with hj1 | hj1
        · omega
        · exact absurd ⟨(hitsByteAddr_iff frame 0xA9).mpr ⟨k, hkn, hk1⟩,
            (hitsByteAddr_iff frame 0xD9).mpr ⟨j, hj, hj1⟩⟩ hnotboth
        · exact absurd ⟨(hitsByteAddr_iff frame 0xA9).mpr ⟨j, hj, hj1⟩,
            (hitsByteAddr_iff frame 0xD9).mpr ⟨k, hkn, hk1⟩⟩ hnotboth
        · omega
      have hloop : byteLoop frame (readBaseOf frame) onChangeInit 0
          (dataLengthOf frame) = some (st', e) := hrun
      obtain ⟨s1, e1, s2, e2, s3, e3, h1, h2, h3, hst, hev⟩ :=
        byteLoop_split frame (readBaseOf frame) onChangeInit 0
          (dataLengthOf frame) k hkn st' e hloop
      have hhead := byteLoop_source_pres frame (readBaseOf frame) onChangeInit
        0 k (fun j hj => by
          intro hcon
          have hzj : 0 + j = j := Nat.zero_add j
          rw [hzj] at hcon
          have hje := huniq j (by omega) hcon
          omega) s1 e1 h1
      have hflag := byteLoop_misc_pres frame (readBaseOf frame) onChangeInit
        0 k s1 e1 h1
      have hlt : (0 + k) + 4 < frame.length := by
        have h2s := byteStep_isSome frame (readBaseOf frame) s1 (0 + k)
        rw [h2] at h2s
        exact h2s.mp rfl
      have hzk : 0 + k = k := Nat.zero_add k
      have hhit : (readBaseOf frame + (0 + k)) % 256 = 0xA9 ∨
          (readBaseOf frame + (0 + k)) % 256 = 0xD9 := by
        rw [hzk]
        exact hk
      rw [byteStep_source_eq frame (readBaseOf frame) s1 (0 + k) hlt hhit] at h2
      have hchanged : (byteDataAt frame (0 + k) != s1.source) = true := by
        have hdlt : byteDataAt frame (0 + k) < 3 := by
          rw [hzk]
          exact hlegal k hkn hk
        have hv : s1.source = 3 := by
          rw [hhead.1]
          rfl
        rw [hv]
        simp only [bne_iff_ne, ne_eq]
        omega
      have hfl : s1.callbackAlways = false := by
        rw [hflag.1]
        rfl
      rw [hfl, hchanged] at h2
      simp only [Bool.false_or, if_pos] at h2
      have htail := byteLoop_source_pres frame (readBaseOf frame) s2
        (0 + k + 1) (dataLengthOf frame - (k + 1))
        (fun j hj => by
          intro hcon
          have hzj : 0 + k + 1 + j = k + 1 + j := by omega
          rw [hzj] at hcon
          have hje := huniq (k + 1 + j) (by omega) hcon
          omega) s3 e3 h3
      simp only [Option.some.injEq, Prod.mk.injEq] at h2
      obtain ⟨hs2, he2⟩ := h2
      subst hev
      rw [List.filter_append, List.filter_append, hhead.2, htail.2, ← he2]
      rfl

/-- From the fresh on-change state, a direct-set response fires exactly one
notification: always for opcode 0x42 (volume, 8-bit data never equals the
sentinel 0x100), and for opcodes 0x17 (muted) and 0x34 (source) whenever
the data byte is a legal value for the field. -/
theorem directSet_first_fires (buf : List Nat) (st' : DSPState)
    (e : List Event)
    (hrun : parseDirectSetResponse onChangeInit buf = some (st', e)) :
    (buf.getD 1 0 % 256 = 0x42 → (e.filter Event.isVolume).length = 1) ∧
    (buf.getD 1 0 % 256 = 0x17 → buf.getD 2 0 % 256 < 2 →
      (e.filter Event.isMuted).length = 1) ∧
    (buf.getD 1 0 % 256 = 0x34 → buf.getD 2 0 % 256 < 3 →
      (e.filter Event.isSource).length = 1) := by
  rw [parseDirectSetResponse] at hrun
  cases hb2 : byteAt buf 2 with
  | none => rw [hb2] at hrun; exact Option.noConfusion hrun
  | some data =>
    cases hb1 : byteAt buf 1 with
    | none => rw [hb2, hb1] at hrun; exact Option.noConfusion hrun
    | some op =>
      rw [hb2, hb1] at hrun
      dsimp only at hrun
      obtain ⟨-, rfl⟩ := byteAt_eq_some buf 2 data hb2
      obtain ⟨-, rfl⟩ := byteAt_eq_some buf 1 op hb1
      refine ⟨?_, ?_, ?_⟩
      · intro h42
        rw [if_pos h42] at hrun
        have hchanged : (buf.getD 2 0 % 256 != onChangeInit.volume) = true := by
          have hdlt : buf.getD 2 0 % 256 < 256 := Nat.mod_lt _ (by omega)
          have hv : onChangeInit.volume = 256 := rfl
          rw [hv]
          simp only [bne_iff_ne, ne_eq]
          omega
        have hfl : onChangeInit.callbackAlways = false := rfl
        rw [hfl, hchanged] at hrun
        simp only [Bool.false_or, if_pos] at hrun
        simp only [Option.some.injEq, Prod.mk.injEq] at hrun
        rw [← hrun.2]
        rfl
      · intro h17 hdata
        have h42 : ¬ buf.getD 1 0 % 256 = 0x42 := by omega
        rw [if_neg h42, if_pos h17] at hrun
        have hchanged : (buf.getD 2 0 % 256 != onChangeInit.muted) = true := by
          have hv : onChangeInit.muted = 2 := rfl
          rw [hv]
          simp only [bne_iff_ne, ne_eq]
          omega
        have hfl : onChangeInit.callbackAlways = false := rfl
        rw [hfl, hchanged] at hrun
        simp only [Bool.false_or, if_pos] at hrun
        simp only [Option.some.injEq, Prod.mk.injEq] at hrun
        rw [← hrun.2]
        rfl
      · intro h34 hdata
        have h42 : ¬ buf.getD 1 0 % 256 = 0x42 := by omega
        have h17 : ¬ buf.getD 1 0 % 256 = 0x17 := by omega
        rw [if_neg h42, if_neg h17, if_pos h34] at hrun
        have hchanged : (buf.getD 2 0 % 256 != onChangeInit.source) = true := by
          have hv : onChangeInit.source = 3 := rfl
          rw [hv]
          simp only [bne_iff_ne, ne_eq]
          omega
        have hfl : onChangeInit.callbackAlways = false := rfl
        rw [hfl, hchanged] at hrun
        simp only [Bool.false_or, if_pos] at hrun
        simp only [Option.some.injEq, Prod.mk.injEq] at hrun
        rw [← hrun.2]
        rfl

/-- Claim C3, amended: the sentinels (preset 4, source 3, volume 256,
muted 2) lie outside every legal field range, so from the fresh on-change
state the first genuine observation of source, volume or muted fires its
callback exactly once — for volume via any byte-read frame whose window
contains 0xDA and via any direct-set response with opcode 0x42; for muted
via 0xDB (byte-read) or opcode 0x17 (direct-set) with a legal data byte;
for source via exactly one of the aliases 0xA9/0xD9 (byte-read) or opcode
0x34 (direct-set) with a legal data byte.  The preset field, however, has
no callback wired, so its first observation fires nothing (see the
counterexample). -/
theorem sentinels_guarantee_first_notification :
    ((∀ p, p < 4 → p ≠ initState.preset) ∧
     (∀ s, s < 3 → s ≠ initState.source) ∧
     (∀ v, v < 256 → v ≠ initState.volume) ∧
     (∀ m, m < 2 → m ≠ initState.muted)) ∧
    (∀ frame st' e,
      parseByteReadResponse onChangeInit frame = some (st', e) →
      (hitsByteAddr frame 0xDA = true →
        (e.filter Event.isVolume).length = 1) ∧
      (hitsByteAddr frame 0xDB = true →
        (∀ k, k < dataLengthOf frame →
          (readBaseOf frame + k) % 256 = 0xDB → byteDataAt frame k < 2) →
        (e.filter Event.isMuted).length = 1) ∧
      ((hitsByteAddr frame 0xA9 = true ∨ hitsByteAddr frame 0xD9 = true) →
        ¬ (hitsByteAddr frame 0xA9 = true ∧ hitsByteAddr frame 0xD9 = true) →
        (∀ k, k < dataLengthOf frame →
          (readBaseOf frame + k) % 256 = 0xA9 ∨
            (readBaseOf frame + k) % 256 = 0xD9 → byteDataAt frame k < 3) →
        (e.filter Event.isSource).length = 1)) ∧
    (∀ buf st' e,
      parseDirectSetResponse onChangeInit buf = some (st', e) →
      (buf.getD 1 0 % 256 = 0x42 → (e.filter Event.isVolume).length = 1) ∧
      (buf.getD 1 0 % 256 = 0x17 → buf.getD 2 0 % 256 < 2 →
        (e.filter Event.isMuted).length = 1) ∧
      (buf.getD 1 0 % 256 = 0x34 → buf.getD 2 0 % 256 < 3 →
        (e.filter Event.isSource).length = 1)) := by
  refine ⟨⟨fun p hp => by simp [initState]; omega,
    fun s hs => by simp [initState]; omega,
    fun v hv => by simp [initState]; omega,
    fun m hm => by simp [initState]; omega⟩, ?_, ?_⟩
  · intro frame st' e hrun
    exact ⟨byteRead_first_volume_fires frame st' e hrun,
      byteRead_first_muted_fires frame st' e hrun,
      byteRead_first_source_fires frame st' e hrun⟩
  · intro buf st' e hrun
    exact directSet_first_fires buf st' e hrun

end MiniDSP
